import Mathlib

/-!
# sugarsnapbot: ingredient extraction, nutrition lookup and report formatting

A shallow embedding of `ingredients_parser.go`, `nutrition_checker.go` and
`main.go`.

Modelling conventions.

* Go `float64` values are modelled by exact rationals (`ℚ`): rounding,
  overflow to an infinity and NaN are outside the model.
* A Go `map[string]T` is an association list with unique keys (`GoMap`);
  `for ... range m` visits the entries in an order chosen by a `RangeOrder`,
  an arbitrary permutation, because Go leaves the iteration order unspecified.
* Calls into libraries and remote services (`encoding/csv`, `strconv`, `fmt`,
  the chat-completion client, the Nutritionix endpoint, the Telegram context)
  are parameters of the model; `simpleLib` gives executable stand-ins that
  agree with the Go libraries on plain unquoted input.
* A Go function returning `(T, error)` is a `Run T`: either it returns a value
  together with an optional error, or it stops with a runtime panic.
-/

namespace SugarSnap

/-! # Definitions -/

/-! ## Go runtime: results, maps and range order -/

/-- Outcome of a Go call: a returned value with an optional error, or a runtime panic. -/
inductive Run (α : Type) where
  | ret (val : α) (err : Option String)
  | panic (msg : String)
deriving DecidableEq, Repr

/-- Go map with string keys: association list, keys unique, insertion order kept. -/
abbrev GoMap (β : Type) := List (String × β)

/-- Map read `m[k]`: the stored value, `none` when the key is absent. -/
def mapGet {β : Type} : GoMap β → String → Option β
  | [], _ => none
  | (k', v) :: rest, k => if k' = k then some v else mapGet rest k

/-- Map write `m[k] = v`: overwrites the entry of `k` or adds a new one. -/
def mapSet {β : Type} : GoMap β → String → β → GoMap β
  | [], k, v => [(k, v)]
  | (k', v') :: rest, k, v =>
    if k' = k then (k, v) :: rest else (k', v') :: mapSet rest k v

/-- Order in which a `range` loop visits the entries of a map: any permutation. -/
structure RangeOrder where
  visit : {α : Type} → List α → List α
  isPerm : ∀ {α : Type} (l : List α), (visit l).Perm l

/-- Iteration in insertion order. -/
def RangeOrder.insertion : RangeOrder := ⟨fun l => l, fun l => List.Perm.refl l⟩

/-- Iteration in reverse insertion order. -/
def RangeOrder.reversed : RangeOrder := ⟨fun l => l.reverse, fun l => List.reverse_perm l⟩

/-! ## Library calls -/

/-- What `encoding/csv` makes of one non-empty line before the field-count check:
its fields, or a lexical error (bad quoting). -/
inductive RawRow where
  | fields (fs : List String)
  | bad
deriving DecidableEq, Repr

/-- The library functions the program calls. -/
structure StdLib where
  /-- Lexing of the text by `csv.NewReader(strings.NewReader(text))`, line by line. -/
  csvLines : String → List RawRow
  /-- The call `strconv.ParseFloat(s, 64)`: `none` when it returns an error. -/
  parseFloat : String → Option ℚ
  /-- The call `fmt.Sprintf("%.2f", v)`. -/
  sprintf2f : ℚ → String

/-- Splits a character list at every occurrence of `sep`. -/
def splitChar (sep : Char) : List Char → List (List Char)
  | [] => [[]]
  | c :: cs =>
    if c = sep then [] :: splitChar sep cs
    else match splitChar sep cs with
      | [] => [[c]]
      | f :: fs => (c :: f) :: fs

/-- Removes one trailing carriage return. -/
def dropCR (l : List Char) : List Char :=
  if l.getLast? = some '\r' then l.dropLast else l

/-- CSV lexing of quote-free text: empty lines are skipped, fields are split at commas;
a line holding a double quote is reported as a lexical error. -/
def simpleCsvLines (s : String) : List RawRow :=
  ((splitChar '\n' s.data).map dropCR |>.filter (fun l => !l.isEmpty)).map fun l =>
    if '"' ∈ l then RawRow.bad
    else RawRow.fields ((splitChar ',' l).map String.mk)

/-- Value of a digit string read as a natural number, `none` on a non-digit. -/
def digitsVal : List Char → Nat → Option Nat
  | [], acc => some acc
  | c :: cs, acc => if c.isDigit then digitsVal cs (acc * 10 + (c.toNat - 48)) else none

/-- Unsigned decimal `ddd` or `ddd.ddd`: its digits read as one number, and the number
of digits after the point. -/
def decimalParts (l : List Char) : Option (Nat × Nat) :=
  match splitChar '.' l with
  | [ip] => if ip.isEmpty then none else (digitsVal ip 0).map fun n => (n, 0)
  | [ip, fp] =>
    if ip.isEmpty && fp.isEmpty then none
    else (digitsVal (ip ++ fp) 0).map fun n => (n, fp.length)
  | _ => none

/-- Signed decimal: whether it is negative, then the `decimalParts`. -/
def signedParts (s : String) : Option (Bool × Nat × Nat) :=
  match s.data with
  | '-' :: rest => (decimalParts rest).map fun p => (true, p)
  | '+' :: rest => (decimalParts rest).map fun p => (false, p)
  | l => (decimalParts l).map fun p => (false, p)

/-- Plain signed decimals, the part of `strconv.ParseFloat` syntax without exponents. -/
def parseDecimal (s : String) : Option ℚ :=
  (signedParts s).map fun p =>
    if p.1 then -((p.2.1 : ℚ) / ((10 ^ p.2.2 : ℕ) : ℚ)) else (p.2.1 : ℚ) / ((10 ^ p.2.2 : ℕ) : ℚ)

/-- Two-digit field, zero padded. -/
def twoDigits (n : Nat) : String :=
  if n < 10 then "0" ++ toString n else toString n

/-- Nearest natural number to `num / den`, ties to even. -/
def roundHalfEven (num den : Nat) : Nat :=
  let fl := num / den
  let r := num % den
  if 2 * r < den then fl
  else if den < 2 * r then fl + 1
  else if fl % 2 = 0 then fl else fl + 1

/-- Rendering of a sign and a fraction `num / den` with two decimals. -/
def fmt2Parts (negative : Bool) (num den : Nat) : String :=
  let n := roundHalfEven (num * 100) den
  (if negative then "-" else "") ++ toString (n / 100) ++ "." ++ twoDigits (n % 100)

/-- Fixed-point rendering with two decimals, as `%.2f` does for finite values. -/
def fmt2f (q : ℚ) : String :=
  fmt2Parts (decide (q < 0)) q.num.natAbs q.den

/-- Executable stand-ins for the library calls. -/
def simpleLib : StdLib := ⟨simpleCsvLines, parseDecimal, fmt2f⟩

/-! ## ingredients_parser.go -/

/-- The `Ingredient` struct. -/
structure Ingredient where
  name : String
  genericName : String
  quantityGrams : ℚ
  originalQuantity : String
  originalQuantityUnit : String
deriving DecidableEq, Repr

/-- One `r.Read()` on the next line: with `FieldsPerRecord` zero the first record fixes
the expected field count; afterwards a record of another length comes with
`ErrFieldCount`. Returns the result and the updated `FieldsPerRecord`. -/
def readRow (fieldsPerRecord : Nat) : RawRow → Except String (List String) × Nat
  | RawRow.bad => (Except.error "parse error", fieldsPerRecord)
  | RawRow.fields fs =>
    if fieldsPerRecord > 0 then
      if fs.length ≠ fieldsPerRecord then (Except.error "wrong number of fields", fieldsPerRecord)
      else (Except.ok fs, fieldsPerRecord)
    else (Except.ok fs, fs.length)

/-- Lines 99-104: `ParseFloat(record[2])`, zero on error, then `grams * 100 / 100`. -/
def parseGrams (lib : StdLib) (field : String) : ℚ :=
  let grams := match lib.parseFloat field with
    | some g => g
    | none => 0
  grams * 100 / 100

/-- Lines 99-112: the `Ingredient` built from one record; `none` when an index
expression `record[i]` is out of range (a runtime panic). -/
def rowIngredient (lib : StdLib) (record : List String) : Option Ingredient :=
  match record[2]? with
  | none => none
  | some f2 =>
    let grams := parseGrams lib f2
    match record[0]?, record[1]?, record[3]? with
    | some f0, some f1, some f3 =>
      some { name := f0, genericName := f1, quantityGrams := grams,
             originalQuantity := f2, originalQuantityUnit := f3 }
    | _, _, _ => none

/-- Line 113: `ingredientMap[key] = append(ingredientMap[key], ingredient)`. -/
def appendToGroup (m : GoMap (List Ingredient)) (key : String) (ing : Ingredient) :
    GoMap (List Ingredient) :=
  mapSet m key ((mapGet m key).getD [] ++ [ing])

/-- Lines 89-114: the read loop over the data rows. -/
def readLoop (lib : StdLib) (fieldsPerRecord : Nat) :
    List RawRow → GoMap (List Ingredient) → Run (GoMap (List Ingredient))
  | [], m => Run.ret m none
  | row :: rest, m =>
    match readRow fieldsPerRecord row with
    | (Except.error _, fpr) => readLoop lib fpr rest m
    | (Except.ok record, fpr) =>
      match rowIngredient lib record, record[1]? with
      | some ing, some key => readLoop lib fpr rest (appendToGroup m key ing)
      | _, _ => Run.panic "index out of range"

/-- Lines 118-135: the ingredient emitted for one group; `none` when `ingredients[0]`
is out of range. -/
def mergeGroup (ingredients : List Ingredient) : Option Ingredient :=
  if ingredients.length > 1 then
    match ingredients[0]? with
    | none => none
    | some first =>
      some { name := first.name, genericName := first.genericName,
             quantityGrams := ingredients.foldl (fun acc ing => acc + ing.quantityGrams) 0,
             originalQuantity := "-", originalQuantityUnit := "-" }
  else ingredients[0]?

/-- Lines 117-136: the merge loop over the visited map entries. -/
def mergeLoop : List (String × List Ingredient) → List Ingredient → Run (List Ingredient)
  | [], result => Run.ret result none
  | (_, ingredients) :: rest, result =>
    match mergeGroup ingredients with
    | none => Run.panic "index out of range [0]"
    | some merged => mergeLoop rest (result ++ [merged])

/-- The method `IngredientsParser.getRecipeIngredients`. `chat` is the chat-completion
call: an error, or the message contents of the returned choices. -/
def getRecipeIngredients (lib : StdLib) (o : RangeOrder)
    (chat : String → Except String (List String)) (text : String) : Run (List Ingredient) :=
  match chat text with
  | Except.error e => Run.ret [] (some e)
  | Except.ok choices =>
    match choices[0]? with
    | none => Run.panic "index out of range [0]"
    | some content =>
      if content = "NO_INGREDIENTS" then Run.ret [] (some "no ingridients in recipe")
      else
        match lib.csvLines content with
        | [] => Run.ret [] (some "EOF")
        | header :: rows =>
          match readRow 0 header with
          | (Except.error e, _) => Run.ret [] (some e)
          | (Except.ok _, fpr) =>
            match readLoop lib fpr rows [] with
            | Run.panic p => Run.panic p
            | Run.ret m _ => mergeLoop (o.visit m) []

/-- A chat service that always answers with one choice holding `content`. -/
def replyWith (content : String) : String → Except String (List String) :=
  fun _ => Except.ok [content]

/-! ## nutrition_checker.go -/

/-- The fields of `FoodDTO` that the program reads. -/
structure FoodDTO where
  foodName : String
  servingWeightGrams : ℚ
  nfTotalCarbohydrate : ℚ
deriving DecidableEq, Repr

/-- The `NutritionSummary` struct. -/
structure NutritionSummary where
  weightGrams : ℚ
  carbsGrams : ℚ
deriving DecidableEq, Repr

/-- The `RecipeResult` struct. -/
structure RecipeResult where
  total : NutritionSummary
  ingredients : GoMap NutritionSummary
deriving DecidableEq, Repr

/-- A call outcome together with the queries it sent to the nutrition service. -/
structure Traced (α : Type) where
  outcome : Run α
  queries : List String
deriving DecidableEq, Repr

/-- Lines 111-116: the name an ingredient is queried under. -/
def queryName (ingredient : Ingredient) : String :=
  if ingredient.genericName ≠ "" then ingredient.genericName else ingredient.name

/-- Lines 109-120: the query string. -/
def nutritionQuery (ingredients : List Ingredient) : String :=
  String.intercalate ", " (ingredients.map queryName)

/-- Lines 134-149: the loop over the returned foods, `i` being the loop index;
`none` when `ingredients[i]` is out of range. -/
def foodLoop (ingredients : List Ingredient) :
    List FoodDTO → Nat → GoMap NutritionSummary → Option (GoMap NutritionSummary)
  | [], _, m => some m
  | food :: rest, i, m =>
    match ingredients[i]? with
    | none => none
    | some ingredient =>
      let servingGrams := food.servingWeightGrams
      let servingCarbs := food.nfTotalCarbohydrate
      let carbsPerGram := servingCarbs / servingGrams
      let recipeAmount := ingredient.quantityGrams
      foodLoop ingredients rest (i + 1)
        (mapSet m food.foodName
          { weightGrams := recipeAmount, carbsGrams := recipeAmount * carbsPerGram })

/-- Lines 154-160: the totals accumulated over the visited map entries. -/
def sumTotals (entries : List (String × NutritionSummary)) : ℚ × ℚ :=
  entries.foldl (fun acc e => (acc.1 + e.2.weightGrams, acc.2 + e.2.carbsGrams)) (0, 0)

/-- The value `result` holds until the totals are stored: empty map, zero totals. -/
def emptyResult : RecipeResult :=
  { total := { weightGrams := 0, carbsGrams := 0 }, ingredients := [] }

/-- The method `NutritionChecker.getNutrition`. `nutritionix` is the call
`getNutritionixResponse`: an error, or the foods of the decoded response. -/
def getNutrition (o : RangeOrder) (nutritionix : String → Except String (List FoodDTO))
    (ingredients : List Ingredient) : Traced RecipeResult :=
  let result := emptyResult
  if ingredients.length = 0 then
    { outcome := Run.ret result (some "zero ingredients"), queries := [] }
  else
    let query := nutritionQuery ingredients
    match nutritionix query with
    | Except.error e => { outcome := Run.ret result (some e), queries := [query] }
    | Except.ok foods =>
      if foods.length ≠ ingredients.length then
        { outcome := Run.ret result (some "couldn't fetch all ingredients from Nutritionix"),
          queries := [query] }
      else
        match foodLoop ingredients foods 0 result.ingredients with
        | none => { outcome := Run.panic "index out of range", queries := [query] }
        | some m =>
          let totals := sumTotals (o.visit m)
          { outcome := Run.ret
              { total := { weightGrams := totals.1, carbsGrams := totals.2 }, ingredients := m }
              none,
            queries := [query] }

/-- The call `strings.ReplaceAll(v, ".", "\\.")` on the characters of `v`. -/
def replaceDot : List Char → List Char
  | [] => []
  | c :: cs => if c = '.' then '\\' :: '.' :: replaceDot cs else c :: replaceDot cs

/-- The function `mdFormatFloat`. -/
def mdFormatFloat (lib : StdLib) (v : ℚ) : String :=
  String.mk (replaceDot (lib.sprintf2f v).data)

/-- The function `mdFormatString`. -/
def mdFormatString (v : String) : String :=
  String.mk (replaceDot v.data)

/-- Lines 185-189: the text one map entry adds to the response. -/
def ingredientLine (lib : StdLib) (name : String) (info : NutritionSummary) : String :=
  "\n Â· " ++ mdFormatString name ++ ": " ++ mdFormatFloat lib info.weightGrams ++ " grams, "
    ++ mdFormatFloat lib info.carbsGrams ++ " carbs"

/-- The method `RecipeResult.toTelegramResponse`. -/
def toTelegramResponse (lib : StdLib) (o : RangeOrder) (r : RecipeResult) : String :=
  let response := "Ingredients:"
  let response := (o.visit r.ingredients).foldl
    (fun resp e => resp ++ ingredientLine lib e.1 e.2) response
  let response := response ++ "\n\n"
  let response := response ++ ("\n Total weight: " ++ mdFormatFloat lib r.total.weightGrams)
  let response := response ++ ("\n Total carbs: " ++ mdFormatFloat lib r.total.carbsGrams)
  response

/-! ## main.go -/

/-- What `calculateRecipeCarbs` does that is visible from outside, in order. -/
inductive Event where
  | extract (text : String)
  | lookup (ingredients : List Ingredient)
  | format (result : RecipeResult)
  | send (text : String) (mode : String)
deriving DecidableEq, Repr

/-- The collaborators of one request. -/
structure Services where
  lib : StdLib
  parserOrder : RangeOrder
  checkerOrder : RangeOrder
  formatOrder : RangeOrder
  chat : String → Except String (List String)
  nutritionix : String → Except String (List FoodDTO)
  /-- The call `c.Send(text, mode)`: its error, if any. -/
  send : String → String → Option String

/-- The method `RecipeNutritionCalculator.calculateRecipeCarbs`: the returned error (or a
panic) and the trace of stage invocations. -/
def calculateRecipeCarbs (s : Services) (text : String) : Run Unit × List Event :=
  match getRecipeIngredients s.lib s.parserOrder s.chat text with
  | Run.panic p => (Run.panic p, [Event.extract text])
  | Run.ret ingredients _ =>
    match (getNutrition s.checkerOrder s.nutritionix ingredients).outcome with
    | Run.panic p => (Run.panic p, [Event.extract text, Event.lookup ingredients])
    | Run.ret result _ =>
      let respText := toTelegramResponse s.lib s.formatOrder result
      (Run.ret () (s.send respText "MarkdownV2"),
        [Event.extract text, Event.lookup ingredients, Event.format result,
         Event.send respText "MarkdownV2"])

/-! ## Definitions used to state the properties -/

/-- The records the read loop gets without error, in order: what `readRow` returns for
each line, the failed reads left out. -/
def keptRows (fieldsPerRecord : Nat) : List RawRow → List (List String)
  | [] => []
  | row :: rest =>
    match readRow fieldsPerRecord row with
    | (Except.error _, fpr) => keptRows fpr rest
    | (Except.ok record, fpr) => record :: keptRows fpr rest

/-- Total form of `rowIngredient`, equal to it on records with at least four fields. -/
def ingredientOf (lib : StdLib) (record : List String) : Ingredient :=
  { name := record.getD 0 "", genericName := record.getD 1 "",
    quantityGrams := parseGrams lib (record.getD 2 ""),
    originalQuantity := record.getD 2 "", originalQuantityUnit := record.getD 3 "" }

/-- Merge rule in the words of the specification: a group of one passes through unchanged,
a larger group gives the first member's names, the sum of the gram quantities and the
placeholder in both original-quantity fields. -/
def specEmit : List Ingredient → Option Ingredient
  | [] => none
  | [single] => some single
  | first :: others =>
    some { name := first.name, genericName := first.genericName,
           quantityGrams := ((first :: others).map Ingredient.quantityGrams).sum,
           originalQuantity := "-", originalQuantityUnit := "-" }

/-- Grouping in the words of the specification: one record per distinct generic name,
built by `specEmit` from the parsed ingredients carrying that generic name. -/
def groupByGenericName (parsed : List Ingredient) : List Ingredient :=
  ((parsed.map Ingredient.genericName).dedup).filterMap fun k =>
    specEmit (parsed.filter fun ing => decide (ing.genericName = k))

/-- The step of the read loop on an accepted record, as a map update. -/
def groupStep (m : GoMap (List Ingredient)) (ing : Ingredient) : GoMap (List Ingredient) :=
  appendToGroup m ing.genericName ing

/-- The map holds exactly the groups of `parsed`: keys are unique, and an entry `(k, g)`
is present exactly when `k` is a generic name of `parsed` and `g` lists its members. -/
def GroupsOf (m : GoMap (List Ingredient)) (parsed : List Ingredient) : Prop :=
  (m.map Prod.fst).Nodup ∧
  ∀ k g, (k, g) ∈ m ↔
    (k ∈ parsed.map Ingredient.genericName ∧
      g = parsed.filter fun ing => decide (ing.genericName = k))

/-! ## Concrete responses -/

/-- The five-column header the prompt asks for. -/
def headerLine : String :=
  "name,generic_name,quantity_grams,original_quantity,original_quantity_unit"

/-- The header as a record. -/
def headerFields : List String :=
  ["name", "generic_name", "quantity_grams", "original_quantity", "original_quantity_unit"]

/-- Two rows sharing the generic name `tomato`. -/
def tomatoCsv : String :=
  headerLine ++ "\ntomato,tomato,50,1,pcs\ncherry tomato,tomato,70,70,g"

/-! ## A single-row response -/

/-- The header and the row `egg,egg,120,2,pcs`. -/
def eggCsv : String := headerLine ++ "\negg,egg,120,2,pcs"

/-! ## A response with a short header -/

/-- A three-column header followed by a three-field row. -/
def shortCsv : String := "name,generic_name,quantity_grams\nsugar,sugar,100"

/-! ## Summaries -/

/-- The summary the food loop stores for a food and the ingredient at its position. -/
def summaryOf (ingredient : Ingredient) (food : FoodDTO) : NutritionSummary :=
  { weightGrams := ingredient.quantityGrams,
    carbsGrams := ingredient.quantityGrams *
      (food.nfTotalCarbohydrate / food.servingWeightGrams) }

/-! ## Concrete lookups -/

/-- Two ingredients as the extractor returns them for the egg and flour rows. -/
def eggFlourIngredients : List Ingredient :=
  [{ name := "egg", genericName := "egg", quantityGrams := 120,
     originalQuantity := "120", originalQuantityUnit := "2" },
   { name := "flour", genericName := "flour", quantityGrams := 100,
     originalQuantity := "100", originalQuantityUnit := "100" }]

/-- The nutrition service answering with egg (serving 50 g, carbs 5) and flour
(serving 100 g, carbs 75). -/
def eggFlourService : String → Except String (List FoodDTO) :=
  fun _ => Except.ok
    [{ foodName := "egg", servingWeightGrams := 50, nfTotalCarbohydrate := 5 },
     { foodName := "flour", servingWeightGrams := 100, nfTotalCarbohydrate := 75 }]

/-- The result of the egg and flour lookup. -/
def eggFlourResult : RecipeResult :=
  { total := { weightGrams := 220, carbsGrams := 87 },
    ingredients := [("egg", { weightGrams := 120, carbsGrams := 12 }),
                    ("flour", { weightGrams := 100, carbsGrams := 75 })] }

/-- Two ingredients that the service matches to the same food name. -/
def sugarIngredients : List Ingredient :=
  [{ name := "white sugar", genericName := "sugar", quantityGrams := 100,
     originalQuantity := "100", originalQuantityUnit := "100" },
   { name := "brown sugar", genericName := "brown sugar", quantityGrams := 50,
     originalQuantity := "50", originalQuantityUnit := "50" }]

/-- The nutrition service answering with two foods both named `sugar`. -/
def sugarService : String → Except String (List FoodDTO) :=
  fun _ => Except.ok
    [{ foodName := "sugar", servingWeightGrams := 100, nfTotalCarbohydrate := 100 },
     { foodName := "sugar", servingWeightGrams := 100, nfTotalCarbohydrate := 98 }]

/-- The result of the sugar lookup: the second food overwrote the entry of the first. -/
def sugarResult : RecipeResult :=
  { total := { weightGrams := 50, carbsGrams := 49 },
    ingredients := [("sugar", { weightGrams := 50, carbsGrams := 49 })] }

/-! ## A request answered with the marker -/

/-- A request whose chat response is the `NO_INGREDIENTS` marker; sending succeeds. -/
def markerServices : Services :=
  { lib := simpleLib, parserOrder := RangeOrder.insertion,
    checkerOrder := RangeOrder.insertion, formatOrder := RangeOrder.insertion,
    chat := replyWith "NO_INGREDIENTS", nutritionix := eggFlourService,
    send := fun _ _ => none }

/-! ## A response with a negative quantity -/

/-- A data row with a negative gram quantity. -/
def negativeCsv : String := headerLine ++ "\nsugar,sugar,-5,1,pinch"

/-- The nutrition service answering with sugar (serving 100 g, carbs 100). -/
def plainSugarService : String → Except String (List FoodDTO) :=
  fun _ => Except.ok
    [{ foodName := "sugar", servingWeightGrams := 100, nfTotalCarbohydrate := 100 }]

/-! ## Escaping of dots -/

/-- Length of the run of backslashes that ends a character list. -/
def runEnd (pre : List Char) : Nat :=
  (pre.reverse.takeWhile fun c => decide (c = '\\')).length

/-- Length of the run of backslashes directly before position `i`. -/
def backslashRun (l : List Char) (i : Nat) : Nat := runEnd (l.take i)

/-- Every `.` is escaped: the run of backslashes directly before it has odd length. -/
def DotsEscaped (l : List Char) : Prop :=
  ∀ i, l[i]? = some '.' → Odd (backslashRun l i)

/-- Every `.` stands after an even-length (possibly empty) run of backslashes. -/
def DotsBare (l : List Char) : Prop :=
  ∀ i, l[i]? = some '.' → ¬ Odd (backslashRun l i)

/-- Every `.` is immediately preceded by a backslash. -/
def DotsPreceded (l : List Char) : Prop :=
  ∀ i, l[i]? = some '.' → ∃ j, i = j + 1 ∧ l[j]? = some '\\'

/-- Parity of the backslash run after one more character. -/
def nextParity (p : Bool) (c : Char) : Bool := if c = '\\' then !p else false

/-- Parity of the backslash run at the end of `l`, when it was `p` before `l`. -/
def scanParity (p : Bool) : List Char → Bool
  | [] => p
  | c :: cs => scanParity (nextParity p c) cs

/-- Left-to-right check that at every `.` the parity of the backslash run is `want`. -/
def dotsOK (want : Bool) (p : Bool) : List Char → Bool
  | [] => true
  | c :: cs => (decide (c ≠ '.') || (p == want)) && dotsOK want (nextParity p c) cs

/-- The text so far escapes its dots and does not end inside a backslash run of odd
length. -/
def Good (l : List Char) : Prop :=
  dotsOK true false l = true ∧ scanParity false l = false

/-- A fixed piece of text without dots that ends the backslash run before it. -/
def Resets (lit : List Char) : Prop :=
  ∀ p, dotsOK true p lit = true ∧ scanParity p lit = false

/-- Left-to-right check that every `.` comes right after a backslash; `b` tells whether
the character before the list is a backslash. -/
def prevOK (b : Bool) : List Char → Bool
  | [] => true
  | c :: cs => (decide (c ≠ '.') || b) && prevOK (decide (c = '\\')) cs

/-- Whether the text ends with a backslash, `b` telling it for the text before. -/
def endsWithBackslash (b : Bool) : List Char → Bool
  | [] => b
  | c :: cs => endsWithBackslash (decide (c = '\\')) cs

/-- In any context every `.` of the text comes right after a backslash of the text. -/
def Preceded (l : List Char) : Prop := ∀ b, prevOK b l = true

/-- A result whose food name holds a backslash right before a dot. -/
def backslashResult : RecipeResult :=
  { total := { weightGrams := 1, carbsGrams := 1 },
    ingredients := [("a\\.b", { weightGrams := 1, carbsGrams := 1 })] }

/-- A result whose food name holds a dot and no backslash. -/
def dottedResult : RecipeResult :=
  { total := { weightGrams := 1, carbsGrams := 1 },
    ingredients := [("dr. pepper", { weightGrams := 1, carbsGrams := 1 })] }

/-! # Theorems -/

/-! ## Go maps -/

theorem mapGet_mapSet {β : Type} (m : GoMap β) (k k' : String) (v : β) :
    mapGet (mapSet m k v) k' = if k = k' then some v else mapGet m k' := by
  induction m with
  | nil => simp [mapSet, mapGet]
  | cons e rest ih =>
    obtain ⟨k0, v0⟩ := e
    by_cases h0 : k0 = k
    · subst h0
      by_cases h1 : k0 = k' <;> simp [mapSet, mapGet, h1]
    · by_cases h1 : k0 = k'
      · subst h1
        have : ¬ k = k0 := fun h => h0 h.symm
        simp [mapSet, mapGet, h0, this]
      · simp [mapSet, mapGet, h0, h1, ih]

theorem mapGet_eq_none {β : Type} (m : GoMap β) (k : String) :
    mapGet m k = none ↔ k ∉ m.map Prod.fst := by
  induction m with
  | nil => simp [mapGet]
  | cons e rest ih =>
    obtain ⟨k0, v0⟩ := e
    by_cases h0 : k0 = k
    · simp [mapGet, h0]
    · have : ¬ k = k0 := fun h => h0 h.symm
      simp [mapGet, h0, this, ih]

theorem mapGet_eq_some {β : Type} (m : GoMap β) (hm : (m.map Prod.fst).Nodup)
    (k : String) (v : β) : mapGet m k = some v ↔ (k, v) ∈ m := by
  induction m with
  | nil => simp [mapGet]
  | cons e rest ih =>
    obtain ⟨k0, v0⟩ := e
    simp only [List.map_cons, List.nodup_cons] at hm
    by_cases h0 : k0 = k
    · subst h0
      have hn : ∀ w, (k0, w) ∉ rest := fun w hw => hm.1 (List.mem_map_of_mem Prod.fst hw)
      simp [mapGet, hn]
      exact eq_comm
    · have : ¬ k = k0 := fun h => h0 h.symm
      simp [mapGet, h0, this, ih hm.2]

theorem mapSet_keys {β : Type} (m : GoMap β) (k : String) (v : β) :
    (mapSet m k v).map Prod.fst =
      if k ∈ m.map Prod.fst then m.map Prod.fst else m.map Prod.fst ++ [k] := by
  induction m with
  | nil => simp [mapSet]
  | cons e rest ih =>
    obtain ⟨k0, v0⟩ := e
    by_cases h0 : k0 = k
    · subst h0
      simp [mapSet]
    · have h1 : ¬ k = k0 := fun h => h0 h.symm
      simp only [mapSet, h0, if_false, List.map_cons, ih, List.mem_cons, h1, false_or]
      split <;> simp

theorem mapSet_nodup {β : Type} (m : GoMap β) (hm : (m.map Prod.fst).Nodup)
    (k : String) (v : β) : ((mapSet m k v).map Prod.fst).Nodup := by
  rw [mapSet_keys]
  split
  · exact hm
  · rename_i h
    rw [List.nodup_append]
    refine ⟨hm, List.nodup_singleton k, ?_⟩
    intro a ha hb
    rw [List.mem_singleton] at hb
    subst hb
    exact h ha

theorem mem_mapSet {β : Type} (m : GoMap β) (hm : (m.map Prod.fst).Nodup)
    (k : String) (v : β) (p : String × β) :
    p ∈ mapSet m k v ↔ p = (k, v) ∨ (p.1 ≠ k ∧ p ∈ m) := by
  obtain ⟨k', v'⟩ := p
  have hn := mapSet_nodup m hm k v
  rw [← mapGet_eq_some _ hn, mapGet_mapSet]
  by_cases h : k = k'
  · subst h
    simp
    exact eq_comm
  · have h' : ¬ k' = k := fun e => h e.symm
    simp [h, h', mapGet_eq_some m hm]

/-! ## The extractor: reading and grouping -/

theorem groupsOf_nil : GroupsOf [] [] := by
  constructor
  · simp
  · intro k g
    simp

theorem groupsOf_step (m : GoMap (List Ingredient)) (parsed : List Ingredient)
    (ing : Ingredient) (h : GroupsOf m parsed) :
    GroupsOf (groupStep m ing) (parsed ++ [ing]) := by
  obtain ⟨hnd, hmem⟩ := h
  refine ⟨mapSet_nodup m hnd _ _, ?_⟩
  intro k g
  unfold groupStep appendToGroup
  rw [mem_mapSet m hnd]
  have hval : (mapGet m ing.genericName).getD [] =
      parsed.filter fun i => decide (i.genericName = ing.genericName) := by
    cases hg : mapGet m ing.genericName with
    | none =>
      have hk : ing.genericName ∉ m.map Prod.fst := (mapGet_eq_none m _).1 hg
      have hk2 : ing.genericName ∉ parsed.map Ingredient.genericName := by
        intro hin
        exact hk (List.mem_map_of_mem Prod.fst ((hmem _ _).2 ⟨hin, rfl⟩))
      simp only [Option.getD_none]
      symm
      rw [List.filter_eq_nil_iff]
      intro a ha hdec
      exact hk2 (by
        have := List.mem_map_of_mem Ingredient.genericName ha
        rwa [of_decide_eq_true hdec] at this)
    | some g0 =>
      have := (hmem _ _).1 ((mapGet_eq_some m hnd _ _).1 hg)
      simpa using this.2
  by_cases hk : k = ing.genericName
  · subst hk
    simp [hval, List.filter_append]
  · have hk' : ¬ ing.genericName = k := fun e => hk e.symm
    simp [hk, hk', hmem, List.filter_append]

theorem groupsOf_foldl (l : List Ingredient) :
    ∀ (m : GoMap (List Ingredient)) (parsed : List Ingredient), GroupsOf m parsed →
      GroupsOf (l.foldl groupStep m) (parsed ++ l) := by
  induction l with
  | nil => intro m parsed h; simpa using h
  | cons ing rest ih =>
    intro m parsed h
    have := ih _ _ (groupsOf_step m parsed ing h)
    simpa using this

theorem rowIngredient_of_length (lib : StdLib) (record : List String)
    (h : 4 ≤ record.length) :
    rowIngredient lib record = some (ingredientOf lib record) ∧
      record[1]? = some (ingredientOf lib record).genericName := by
  match record, h with
  | f0 :: f1 :: f2 :: f3 :: rest, _ => simp [rowIngredient, ingredientOf]

theorem rowIngredient_none (lib : StdLib) (record : List String)
    (h : record.length < 4) : rowIngredient lib record = none := by
  match record, h with
  | [], _ => simp [rowIngredient]
  | [_], _ => simp [rowIngredient]
  | [_, _], _ => simp [rowIngredient]
  | [_, _, _], _ => simp [rowIngredient]

theorem readLoop_eq (lib : StdLib) (rows : List RawRow) :
    ∀ (fpr : Nat) (m : GoMap (List Ingredient)),
      (∀ r ∈ keptRows fpr rows, 4 ≤ r.length) →
      readLoop lib fpr rows m =
        Run.ret (((keptRows fpr rows).map (ingredientOf lib)).foldl groupStep m) none := by
  induction rows with
  | nil => intro fpr m _; simp [readLoop, keptRows]
  | cons row rest ih =>
    intro fpr m h
    unfold readLoop
    unfold keptRows at h ⊢
    rcases hr : readRow fpr row with ⟨res, fpr'⟩
    rw [hr] at h
    cases res with
    | error e => simpa using ih fpr' m h
    | ok record =>
      simp only [List.mem_cons, forall_eq_or_imp] at h
      obtain ⟨h1, h2⟩ := rowIngredient_of_length lib record h.1
      simp only [h1, h2, List.map_cons, List.foldl_cons]
      exact ih fpr' _ h.2

theorem keptRows_length (rows : List RawRow) (fpr : Nat) (hf : 0 < fpr) :
    ∀ r ∈ keptRows fpr rows, r.length = fpr := by
  induction rows with
  | nil => simp [keptRows]
  | cons row rest ih =>
    intro r hr
    unfold keptRows at hr
    cases row with
    | bad => simp only [readRow] at hr; exact ih r hr
    | fields fs =>
      simp only [readRow, hf, if_true] at hr
      by_cases hl : fs.length = fpr
      · simp only [hl, ne_eq, not_true_eq_false, if_false, List.mem_cons] at hr
        rcases hr with rfl | hr
        · exact hl
        · exact ih r hr
      · simp only [ne_eq, hl, not_false_eq_true, if_true] at hr
        exact ih r hr

theorem keptRows_all_fields (rows : List (List String)) (fpr : Nat) (hf : 0 < fpr)
    (h : ∀ r ∈ rows, r.length = fpr) : keptRows fpr (rows.map RawRow.fields) = rows := by
  induction rows with
  | nil => simp [keptRows]
  | cons r rest ih =>
    have hr : r.length = fpr := h r (List.mem_cons_self _ _)
    simp only [List.map_cons, keptRows, readRow, hf, if_true, hr, ne_eq, not_true_eq_false,
      if_false]
    rw [ih (fun x hx => h x (List.mem_cons_of_mem _ hx))]

theorem foldl_quantity (l : List Ingredient) :
    ∀ a : ℚ, l.foldl (fun acc ing => acc + ing.quantityGrams) a =
      a + (l.map Ingredient.quantityGrams).sum := by
  induction l with
  | nil => intro a; simp
  | cons x rest ih => intro a; simp [ih, add_assoc]

theorem mergeGroup_eq_specEmit (g : List Ingredient) : mergeGroup g = specEmit g := by
  match g with
  | [] => simp [mergeGroup, specEmit]
  | [x] => simp [mergeGroup, specEmit]
  | x :: y :: rest =>
    simp only [mergeGroup, specEmit]
    rw [foldl_quantity]
    simp

theorem mergeLoop_eq (entries : List (String × List Ingredient)) :
    ∀ acc : List Ingredient, (∀ e ∈ entries, e.2 ≠ []) →
      ∃ out, mergeLoop entries acc = Run.ret (acc ++ out) none ∧
        entries.map (fun e => mergeGroup e.2) = out.map some := by
  induction entries with
  | nil => intro acc _; exact ⟨[], by simp [mergeLoop]⟩
  | cons e rest ih =>
    intro acc h
    obtain ⟨k, g⟩ := e
    have hg : g ≠ [] := h (k, g) (List.mem_cons_self _ _)
    obtain ⟨x, hx⟩ : ∃ x, mergeGroup g = some x := by
      match g, hg with
      | [a], _ => exact ⟨a, by simp [mergeGroup]⟩
      | a :: b :: r, _ => exact ⟨_, by simp [mergeGroup]; rfl⟩
    obtain ⟨out, ho1, ho2⟩ := ih (acc ++ [x]) (fun e he => h e (List.mem_cons_of_mem _ he))
    refine ⟨x :: out, ?_, ?_⟩
    · simp [mergeLoop, hx, ho1]
    · simp [hx, ho2]

theorem groupsOf_perm (m : GoMap (List Ingredient)) (parsed : List Ingredient)
    (h : GroupsOf m parsed) :
    m.Perm (((parsed.map Ingredient.genericName).dedup).map fun k =>
      (k, parsed.filter fun ing => decide (ing.genericName = k))) := by
  obtain ⟨hnd, hmem⟩ := h
  rw [List.perm_ext_iff_of_nodup (List.Nodup.of_map Prod.fst hnd)]
  · rintro ⟨k, g⟩
    rw [hmem]
    constructor
    · rintro ⟨hk, rfl⟩
      exact List.mem_map.2 ⟨k, List.mem_dedup.2 hk, rfl⟩
    · intro hin
      obtain ⟨k', hk', he⟩ := List.mem_map.1 hin
      simp only [Prod.mk.injEq] at he
      obtain ⟨rfl, rfl⟩ := he
      exact ⟨List.mem_dedup.1 hk', rfl⟩
  · refine List.Nodup.map ?_ (List.nodup_dedup _)
    intro a b hab
    simp only [Prod.mk.injEq] at hab
    exact hab.1

theorem groupsOf_nonempty (m : GoMap (List Ingredient)) (parsed : List Ingredient)
    (h : GroupsOf m parsed) : ∀ e ∈ m, e.2 ≠ [] := by
  rintro ⟨k, g⟩ he
  obtain ⟨hk, rfl⟩ := (h.2 k g).1 he
  obtain ⟨ing, hing, rfl⟩ := List.mem_map.1 hk
  intro hnil
  have : ing ∈ parsed.filter fun i => decide (i.genericName = ing.genericName) :=
    List.mem_filter.2 ⟨hing, by simp⟩
  simp only at hnil
  rw [hnil] at this
  exact List.not_mem_nil _ this

theorem merge_groups (o : RangeOrder) (m : GoMap (List Ingredient))
    (parsed : List Ingredient) (h : GroupsOf m parsed) :
    ∃ out, mergeLoop (o.visit m) [] = Run.ret out none ∧
      out.Perm (groupByGenericName parsed) ∧
      out.length = ((parsed.map Ingredient.genericName).dedup).length := by
  have hperm : (o.visit m).Perm m := o.isPerm m
  have hne : ∀ e ∈ o.visit m, e.2 ≠ [] :=
    fun e he => groupsOf_nonempty m parsed h e (hperm.mem_iff.1 he)
  obtain ⟨out, ho1, ho2⟩ := mergeLoop_eq (o.visit m) [] hne
  have hS := hperm.trans (groupsOf_perm m parsed h)
  refine ⟨out, by simp [ho1], ?_, ?_⟩
  · have h1 := (hS.map fun e => mergeGroup e.2).filterMap id
    rw [ho2] at h1
    simp only [List.filterMap_map, List.map_map] at h1
    have h2 : List.filterMap (id ∘ some) out = out := by
      simp
    rw [h2] at h1
    unfold groupByGenericName
    refine h1.trans (List.Perm.of_eq ?_)
    apply List.filterMap_congr
    intro k _
    simp [mergeGroup_eq_specEmit]
  · have h1 := congrArg List.length ho2
    simp only [List.length_map] at h1
    rw [← h1, hS.length_eq, List.length_map]

theorem getRecipeIngredients_ok (lib : StdLib) (o : RangeOrder)
    (chat : String → Except String (List String)) (text content : String)
    (more : List String) (header : RawRow) (rows : List RawRow)
    (hd : List String) (fpr : Nat)
    (hchat : chat text = Except.ok (content :: more))
    (hmark : content ≠ "NO_INGREDIENTS")
    (hlex : lib.csvLines content = header :: rows)
    (hhdr : readRow 0 header = (Except.ok hd, fpr))
    (hlen : ∀ r ∈ keptRows fpr rows, 4 ≤ r.length) :
    ∃ result, getRecipeIngredients lib o chat text = Run.ret result none ∧
      result.Perm (groupByGenericName ((keptRows fpr rows).map (ingredientOf lib))) ∧
      result.length =
        ((((keptRows fpr rows).map (ingredientOf lib)).map Ingredient.genericName).dedup).length := by
  have hg := groupsOf_foldl ((keptRows fpr rows).map (ingredientOf lib)) [] [] groupsOf_nil
  rw [List.nil_append] at hg
  obtain ⟨out, ho1, ho2, ho3⟩ := merge_groups o _ _ hg
  refine ⟨out, ?_, ho2, ho3⟩
  unfold getRecipeIngredients
  simp only [hchat, List.getElem?_cons_zero, hmark, if_false, hlex, hhdr,
    readLoop_eq lib rows fpr [] hlen]
  exact ho1

/-! ## Concrete inputs -/

theorem simpleCsvLines_tomatoCsv :
    simpleCsvLines tomatoCsv =
      [RawRow.fields headerFields, RawRow.fields ["tomato", "tomato", "50", "1", "pcs"],
       RawRow.fields ["cherry tomato", "tomato", "70", "70", "g"]] := by
  decide

theorem parseDecimal_50 : parseDecimal "50" = some 50 := by
  simp [parseDecimal, show signedParts "50" = some (false, 50, 0) from by decide]

theorem parseDecimal_70 : parseDecimal "70" = some 70 := by
  simp [parseDecimal, show signedParts "70" = some (false, 70, 0) from by decide]

theorem getRecipeIngredients_tomatoCsv :
    getRecipeIngredients simpleLib RangeOrder.insertion (replyWith tomatoCsv) "tomato salad" =
      Run.ret [{ name := "tomato", genericName := "tomato", quantityGrams := 120,
                 originalQuantity := "-", originalQuantityUnit := "-" }] none := by
  have hm : tomatoCsv ≠ "NO_INGREDIENTS" := by decide
  simp [getRecipeIngredients, replyWith, hm, simpleLib, simpleCsvLines_tomatoCsv, readRow,
    headerFields, readLoop, rowIngredient, parseGrams, parseDecimal_50, parseDecimal_70,
    appendToGroup, mapGet, mapSet, RangeOrder.insertion, mergeLoop, mergeGroup]
  norm_num

/-! ## C1 -/

/-- C1. For a tabular response whose header has at least the four fields the code reads and
whose data rows all have the header's field count (so every row parses),
`getRecipeIngredients` succeeds and returns, up to order, the grouping of the parsed
ingredients by generic name: single-member groups unchanged, larger groups merged with the
first member's names, the summed grams and the placeholder `-`; the number of records is
the number of distinct values of the generic-name field. -/
theorem getRecipeIngredients_groups_by_genericName (lib : StdLib) (o : RangeOrder)
    (chat : String → Except String (List String)) (text content : String)
    (more : List String) (header : List String) (rows : List (List String))
    (hchat : chat text = Except.ok (content :: more))
    (hmark : content ≠ "NO_INGREDIENTS")
    (hlex : lib.csvLines content = RawRow.fields header :: rows.map RawRow.fields)
    (hhdr : 4 ≤ header.length)
    (hrows : ∀ r ∈ rows, r.length = header.length) :
    ∃ parsed result,
      rows.map (rowIngredient lib) = parsed.map some ∧
      getRecipeIngredients lib o chat text = Run.ret result none ∧
      result.Perm (groupByGenericName parsed) ∧
      result.length = ((rows.map fun r => r.getD 1 "").dedup).length := by
  have hpos : 0 < header.length := by omega
  have hread : readRow 0 (RawRow.fields header) = (Except.ok header, header.length) := by
    simp [readRow]
  have hkept := keptRows_all_fields rows header.length hpos hrows
  have hlen : ∀ r ∈ keptRows header.length (rows.map RawRow.fields), 4 ≤ r.length := by
    rw [hkept]
    intro r hr
    rw [hrows r hr]
    exact hhdr
  obtain ⟨result, h1, h2, h3⟩ :=
    getRecipeIngredients_ok lib o chat text content more _ _ header header.length
      hchat hmark hlex hread hlen
  rw [hkept] at h2 h3
  refine ⟨rows.map (ingredientOf lib), result, ?_, h1, h2, ?_⟩
  · rw [List.map_map]
    apply List.map_congr_left
    intro r hr
    have h4 : 4 ≤ r.length := by rw [hrows r hr]; exact hhdr
    simp [(rowIngredient_of_length lib r h4).1]
  · rw [h3, List.map_map]
    rfl

theorem getRecipeIngredients_groups_by_genericName_witness :
    (∃ parsed result,
      [["tomato", "tomato", "50", "1", "pcs"], ["cherry tomato", "tomato", "70", "70", "g"]].map
          (rowIngredient simpleLib) = parsed.map some ∧
      getRecipeIngredients simpleLib RangeOrder.insertion (replyWith tomatoCsv) "tomato salad" =
        Run.ret result none ∧
      result.Perm (groupByGenericName parsed) ∧
      result.length =
        (([["tomato", "tomato", "50", "1", "pcs"],
           ["cherry tomato", "tomato", "70", "70", "g"]].map fun r => r.getD 1 "").dedup).length) ∧
    getRecipeIngredients simpleLib RangeOrder.insertion (replyWith tomatoCsv) "tomato salad" =
      Run.ret [{ name := "tomato", genericName := "tomato", quantityGrams := 120,
                 originalQuantity := "-", originalQuantityUnit := "-" }] none :=
  ⟨getRecipeIngredients_groups_by_genericName simpleLib RangeOrder.insertion
      (replyWith tomatoCsv) "tomato salad" tomatoCsv [] headerFields
      [["tomato", "tomato", "50", "1", "pcs"], ["cherry tomato", "tomato", "70", "70", "g"]]
      rfl (by decide) simpleCsvLines_tomatoCsv (by decide) (by decide),
   getRecipeIngredients_tomatoCsv⟩

/-! ## C6 -/

theorem visit_nil (o : RangeOrder) {α : Type} : o.visit ([] : List α) = [] :=
  List.Perm.eq_nil (o.isPerm [])

theorem visit_singleton (o : RangeOrder) {α : Type} (x : α) : o.visit [x] = [x] :=
  List.perm_singleton.1 (o.isPerm [x])

theorem readLoop_ret (lib : StdLib) (rows : List RawRow) :
    ∀ (fpr : Nat) (m m' : GoMap (List Ingredient)) (e : Option String),
      readLoop lib fpr rows m = Run.ret m' e → ∀ r ∈ keptRows fpr rows, 4 ≤ r.length := by
  induction rows with
  | nil => intro fpr m m' e _ r hr; simp [keptRows] at hr
  | cons row rest ih =>
    intro fpr m m' e h r hr
    unfold readLoop at h
    unfold keptRows at hr
    rcases hrow : readRow fpr row with ⟨res, fpr'⟩
    rw [hrow] at h hr
    cases res with
    | error msg => exact ih fpr' m m' e h r hr
    | ok record =>
      simp only at h hr
      have hlen : 4 ≤ record.length := by
        by_contra hlt
        rw [rowIngredient_none lib record (by omega)] at h
        simp at h
      obtain ⟨h1, h2⟩ := rowIngredient_of_length lib record hlen
      simp only [h1, h2] at h
      simp only [List.mem_cons] at hr
      rcases hr with rfl | hr
      · exact hlen
      · exact ih fpr' _ m' e h r hr

/-- C6, counterexample. A response made of the header row alone is answered with a nil
error and an empty ingredient list. -/
theorem getRecipeIngredients_header_only :
    getRecipeIngredients simpleLib RangeOrder.insertion (replyWith headerLine) "just water" =
      Run.ret [] none := by
  decide

theorem getRecipeIngredients_success (lib : StdLib) (o : RangeOrder)
    (chat : String → Except String (List String)) (text : String)
    (result : List Ingredient)
    (h : getRecipeIngredients lib o chat text = Run.ret result none) :
    ∃ content more header rows hd fpr,
      chat text = Except.ok (content :: more) ∧
      content ≠ "NO_INGREDIENTS" ∧
      lib.csvLines content = header :: rows ∧
      readRow 0 header = (Except.ok hd, fpr) ∧
      (∀ r ∈ keptRows fpr rows, 4 ≤ r.length) ∧
      result.Perm (groupByGenericName ((keptRows fpr rows).map (ingredientOf lib))) ∧
      result.length =
        ((((keptRows fpr rows).map (ingredientOf lib)).map
          Ingredient.genericName).dedup).length := by
  unfold getRecipeIngredients at h
  cases hchat : chat text with
  | error e => rw [hchat] at h; simp at h
  | ok choices =>
    rw [hchat] at h
    cases choices with
    | nil => simp at h
    | cons content more =>
      simp only [List.getElem?_cons_zero] at h
      by_cases hmark : content = "NO_INGREDIENTS"
      · simp [hmark] at h
      · simp only [hmark, if_false] at h
        cases hlex : lib.csvLines content with
        | nil => rw [hlex] at h; simp at h
        | cons header rows =>
          rw [hlex] at h
          simp only at h
          rcases hread : readRow 0 header with ⟨res, fpr⟩
          rw [hread] at h
          cases res with
          | error e => simp at h
          | ok hd =>
            simp only at h
            cases hloop : readLoop lib fpr rows [] with
            | panic p => rw [hloop] at h; simp at h
            | ret m e =>
              have hlen := readLoop_ret lib rows fpr [] m e hloop
              obtain ⟨result', h1, h2, h3⟩ :=
                getRecipeIngredients_ok lib o chat text content more header rows hd fpr
                  hchat hmark hlex hread hlen
              have hfull : getRecipeIngredients lib o chat text = Run.ret result none := by
                unfold getRecipeIngredients
                simp only [hchat, List.getElem?_cons_zero, hmark, if_false, hlex, hread, hloop]
                rw [hloop] at h
                exact h
              rw [hfull] at h1
              have heq : result = result' := by
                injection h1
              subst heq
              exact ⟨content, more, header, rows, hd, fpr, rfl, hmark, hlex, hread, hlen,
                h2, h3⟩

/-- C6, amended. When `getRecipeIngredients` returns a nil error the response was not the
`NO_INGREDIENTS` marker and its header row was read, and the returned list has at least one
ingredient exactly when at least one data row was read without error. -/
theorem getRecipeIngredients_success_nonempty_iff (lib : StdLib) (o : RangeOrder)
    (chat : String → Except String (List String)) (text : String)
    (result : List Ingredient)
    (h : getRecipeIngredients lib o chat text = Run.ret result none) :
    ∃ content more header rows hd fpr,
      chat text = Except.ok (content :: more) ∧
      content ≠ "NO_INGREDIENTS" ∧
      lib.csvLines content = header :: rows ∧
      readRow 0 header = (Except.ok hd, fpr) ∧
      (result ≠ [] ↔ keptRows fpr rows ≠ []) := by
  obtain ⟨content, more, header, rows, hd, fpr, hchat, hmark, hlex, hread, _, _, h3⟩ :=
    getRecipeIngredients_success lib o chat text result h
  refine ⟨content, more, header, rows, hd, fpr, hchat, hmark, hlex, hread, ?_⟩
  constructor
  · intro hne hk
    rw [hk] at h3
    simp at h3
    exact hne h3
  · intro hk hres
    rw [hres] at h3
    simp only [List.length_nil] at h3
    have hd0 := List.length_eq_zero.1 h3.symm
    obtain ⟨r, rs, hrs⟩ := List.exists_cons_of_ne_nil hk
    have hmem : (ingredientOf lib r).genericName ∈
        (((keptRows fpr rows).map (ingredientOf lib)).map
          Ingredient.genericName).dedup := by
      rw [List.mem_dedup, hrs]
      simp
    rw [hd0] at hmem
    exact List.not_mem_nil _ hmem

theorem getRecipeIngredients_success_nonempty_iff_witness :
    ∃ content more header rows hd fpr,
      replyWith tomatoCsv "tomato salad" = Except.ok (content :: more) ∧
      content ≠ "NO_INGREDIENTS" ∧
      simpleLib.csvLines content = header :: rows ∧
      readRow 0 header = (Except.ok hd, fpr) ∧
      (([{ name := "tomato", genericName := "tomato", quantityGrams := 120,
           originalQuantity := "-", originalQuantityUnit := "-" }] : List Ingredient) ≠ [] ↔
        keptRows fpr rows ≠ []) :=
  getRecipeIngredients_success_nonempty_iff simpleLib RangeOrder.insertion
    (replyWith tomatoCsv) "tomato salad" _ getRecipeIngredients_tomatoCsv

/-! ## C7 -/

theorem simpleCsvLines_eggCsv :
    simpleCsvLines eggCsv =
      [RawRow.fields headerFields, RawRow.fields ["egg", "egg", "120", "2", "pcs"]] := by
  decide

theorem parseDecimal_120 : parseDecimal "120" = some 120 := by
  simp [parseDecimal, show signedParts "120" = some (false, 120, 0) from by decide]

/-- C7, the code at the row `egg,egg,120,2,pcs`. Whatever the iteration order, the returned
ingredient has `originalQuantity = "120"` (the `quantity_grams` field) and
`originalQuantityUnit = "2"` (the `original_quantity` field): the code stores `record[2]`
and `record[3]` where the column list of the prompt puts these values at `record[3]` and
`record[4]`. -/
theorem getRecipeIngredients_egg_row_original_fields (o : RangeOrder) :
    getRecipeIngredients simpleLib o (replyWith eggCsv) "2 eggs" =
      Run.ret [{ name := "egg", genericName := "egg", quantityGrams := 120,
                 originalQuantity := "120", originalQuantityUnit := "2" }] none := by
  have hm : eggCsv ≠ "NO_INGREDIENTS" := by decide
  simp [getRecipeIngredients, replyWith, hm, simpleLib, simpleCsvLines_eggCsv, readRow,
    headerFields, readLoop, rowIngredient, parseGrams, parseDecimal_120,
    appendToGroup, mapGet, mapSet, visit_singleton, mergeLoop, mergeGroup]

/-! ## C8 -/

/-- C8, the code at a short header. With a three-column header a three-field data row passes
the reader's field-count check, and indexing `record[3]` stops the call with a runtime
panic instead of skipping the row. -/
theorem getRecipeIngredients_short_header_panics (o : RangeOrder) :
    getRecipeIngredients simpleLib o (replyWith shortCsv) "sugar 100g" =
      Run.panic "index out of range" := by
  have hm : shortCsv ≠ "NO_INGREDIENTS" := by decide
  have hlex : simpleCsvLines shortCsv =
      [RawRow.fields ["name", "generic_name", "quantity_grams"],
       RawRow.fields ["sugar", "sugar", "100"]] := by decide
  simp [getRecipeIngredients, replyWith, hm, simpleLib, hlex, readRow, readLoop,
    rowIngredient]

/-- With a header of at least four fields, every row with fewer than four fields (and every
other row the reader rejects) is skipped: the call returns a nil error and the grouping of
the accepted rows alone. -/
theorem getRecipeIngredients_skips_short_rows (lib : StdLib) (o : RangeOrder)
    (chat : String → Except String (List String)) (text content : String)
    (more : List String) (header : List String) (rows : List RawRow)
    (hchat : chat text = Except.ok (content :: more))
    (hmark : content ≠ "NO_INGREDIENTS")
    (hlex : lib.csvLines content = RawRow.fields header :: rows)
    (hhdr : 4 ≤ header.length) :
    (∀ r ∈ keptRows header.length rows, r.length = header.length) ∧
    ∃ result, getRecipeIngredients lib o chat text = Run.ret result none ∧
      result.Perm
        (groupByGenericName ((keptRows header.length rows).map (ingredientOf lib))) := by
  have hpos : 0 < header.length := by omega
  have hread : readRow 0 (RawRow.fields header) = (Except.ok header, header.length) := by
    simp [readRow]
  have hk := keptRows_length rows header.length hpos
  refine ⟨hk, ?_⟩
  obtain ⟨result, h1, h2, _⟩ :=
    getRecipeIngredients_ok lib o chat text content more _ rows header header.length
      hchat hmark hlex hread (fun r hr => by rw [hk r hr]; exact hhdr)
  exact ⟨result, h1, h2⟩

/-! ## The nutrition lookup -/

theorem mem_mapSet_imp {β : Type} (m : GoMap β) (k : String) (v : β) (p : String × β)
    (h : p ∈ mapSet m k v) : p = (k, v) ∨ p ∈ m := by
  induction m with
  | nil => simpa [mapSet] using h
  | cons e rest ih =>
    obtain ⟨k0, v0⟩ := e
    by_cases h0 : k0 = k
    · simp only [mapSet, h0, if_true, List.mem_cons] at h
      rcases h with h | h
      · exact Or.inl h
      · exact Or.inr (List.mem_cons_of_mem _ h)
    · simp only [mapSet, h0, if_false, List.mem_cons] at h
      rcases h with h | h
      · exact Or.inr (by rw [h]; exact List.mem_cons_self _ _)
      · rcases ih h with h | h
        · exact Or.inl h
        · exact Or.inr (List.mem_cons_of_mem _ h)

theorem foodLoop_some (ingredients : List Ingredient) (foods : List FoodDTO) :
    ∀ (i : Nat) (m : GoMap NutritionSummary), i + foods.length ≤ ingredients.length →
      ∃ m', foodLoop ingredients foods i m = some m' := by
  induction foods with
  | nil => intro i m _; exact ⟨m, rfl⟩
  | cons food rest ih =>
    intro i m h
    simp only [List.length_cons] at h
    have hi : i < ingredients.length := by omega
    unfold foodLoop
    rw [List.getElem?_eq_getElem hi]
    exact ih (i + 1) _ (by omega)

theorem foodLoop_get_other (ingredients : List Ingredient) (foods : List FoodDTO) (n : String) :
    ∀ (i : Nat) (m m' : GoMap NutritionSummary),
      foodLoop ingredients foods i m = some m' →
      (∀ f ∈ foods, f.foodName ≠ n) → mapGet m' n = mapGet m n := by
  induction foods with
  | nil =>
    intro i m m' h _
    simp only [foodLoop, Option.some.injEq] at h
    rw [h]
  | cons food rest ih =>
    intro i m m' h hn
    unfold foodLoop at h
    cases hi : ingredients[i]? with
    | none => rw [hi] at h; simp at h
    | some ing =>
      rw [hi] at h
      simp only at h
      rw [ih (i + 1) _ m' h (fun f hf => hn f (List.mem_cons_of_mem _ hf)), mapGet_mapSet]
      simp [hn food (List.mem_cons_self _ _)]

theorem foodLoop_get_last (ingredients : List Ingredient) (foods : List FoodDTO) :
    ∀ (i : Nat) (m m' : GoMap NutritionSummary),
      foodLoop ingredients foods i m = some m' →
      ∀ (k : Nat) (food : FoodDTO) (ing : Ingredient),
        foods[k]? = some food → ingredients[i + k]? = some ing →
        (∀ j food', k < j → foods[j]? = some food' → food'.foodName ≠ food.foodName) →
        mapGet m' food.foodName = some (summaryOf ing food) := by
  induction foods with
  | nil => intro i m m' _ k food ing hk; simp at hk
  | cons f rest ih =>
    intro i m m' h k food ing hk hing hlast
    unfold foodLoop at h
    cases hi : ingredients[i]? with
    | none => rw [hi] at h; simp at h
    | some ing0 =>
      rw [hi] at h
      simp only at h
      cases k with
      | zero =>
        simp only [List.getElem?_cons_zero, Option.some.injEq] at hk
        subst hk
        simp only [Nat.add_zero] at hing
        rw [hi] at hing
        simp only [Option.some.injEq] at hing
        subst hing
        have hrest : ∀ g ∈ rest, g.foodName ≠ f.foodName := by
          intro g hg
          obtain ⟨j, hj, hgj⟩ := List.getElem_of_mem hg
          exact hlast (j + 1) g (by omega)
            (by simp [List.getElem?_eq_getElem hj, hgj])
        rw [foodLoop_get_other ingredients rest f.foodName (i + 1) _ m' h hrest,
          mapGet_mapSet]
        simp [summaryOf]
      | succ k' =>
        simp only [List.getElem?_cons_succ] at hk
        refine ih (i + 1) _ m' h k' food ing hk (by rw [← hing]; congr 1; omega) ?_
        intro j food' hj hf
        exact hlast (j + 1) food' (by omega) (by simpa using hf)

theorem foodLoop_keys (ingredients : List Ingredient) (foods : List FoodDTO) (n : String) :
    ∀ (i : Nat) (m m' : GoMap NutritionSummary),
      foodLoop ingredients foods i m = some m' →
      ((mapGet m' n).isSome ↔ (n ∈ foods.map FoodDTO.foodName ∨ (mapGet m n).isSome)) := by
  induction foods with
  | nil =>
    intro i m m' h
    simp only [foodLoop, Option.some.injEq] at h
    simp [h]
  | cons food rest ih =>
    intro i m m' h
    unfold foodLoop at h
    cases hi : ingredients[i]? with
    | none => rw [hi] at h; simp at h
    | some ing =>
      rw [hi] at h
      simp only at h
      rw [ih (i + 1) _ m' h, mapGet_mapSet]
      by_cases hn : food.foodName = n
      · simp [hn]
      · have hn' : ¬ n = food.foodName := fun e => hn e.symm
        simp [hn, hn']

theorem foodLoop_mem (ingredients : List Ingredient) (foods : List FoodDTO) :
    ∀ (i : Nat) (m m' : GoMap NutritionSummary),
      foodLoop ingredients foods i m = some m' →
      ∀ e ∈ m', e ∈ m ∨ ∃ food ∈ foods, ∃ ing ∈ ingredients, e.2 = summaryOf ing food := by
  induction foods with
  | nil =>
    intro i m m' h e he
    simp only [foodLoop, Option.some.injEq] at h
    rw [← h] at he
    exact Or.inl he
  | cons food rest ih =>
    intro i m m' h e he
    unfold foodLoop at h
    cases hi : ingredients[i]? with
    | none => rw [hi] at h; simp at h
    | some ing =>
      rw [hi] at h
      simp only at h
      rcases ih (i + 1) _ m' h e he with h1 | ⟨f, hf, g, hg, hfg⟩
      · rcases mem_mapSet_imp m _ _ e h1 with h2 | h2
        · refine Or.inr ⟨food, List.mem_cons_self _ _, ing, List.getElem?_mem hi, ?_⟩
          rw [h2]
          rfl
        · exact Or.inl h2
      · exact Or.inr ⟨f, List.mem_cons_of_mem _ hf, g, hg, hfg⟩

theorem sumTotals_foldl (entries : List (String × NutritionSummary)) :
    ∀ acc : ℚ × ℚ,
      entries.foldl (fun acc e => (acc.1 + e.2.weightGrams, acc.2 + e.2.carbsGrams)) acc =
        (acc.1 + (entries.map fun e => e.2.weightGrams).sum,
         acc.2 + (entries.map fun e => e.2.carbsGrams).sum) := by
  induction entries with
  | nil => intro acc; simp
  | cons e rest ih => intro acc; simp [ih, add_assoc]

theorem sumTotals_eq (entries : List (String × NutritionSummary)) :
    sumTotals entries =
      ((entries.map fun e => e.2.weightGrams).sum, (entries.map fun e => e.2.carbsGrams).sum) := by
  unfold sumTotals
  rw [sumTotals_foldl]
  simp

theorem sumTotals_visit (o : RangeOrder) (m : GoMap NutritionSummary) :
    sumTotals (o.visit m) = sumTotals m := by
  rw [sumTotals_eq, sumTotals_eq]
  have hp := o.isPerm m
  rw [(hp.map fun e => e.2.weightGrams).sum_eq, (hp.map fun e => e.2.carbsGrams).sum_eq]

theorem getNutrition_success (o : RangeOrder)
    (nutritionix : String → Except String (List FoodDTO)) (ingredients : List Ingredient)
    (r : RecipeResult) (h : (getNutrition o nutritionix ingredients).outcome = Run.ret r none) :
    ingredients ≠ [] ∧
    ∃ foods, nutritionix (nutritionQuery ingredients) = Except.ok foods ∧
      foods.length = ingredients.length ∧
      foodLoop ingredients foods 0 [] = some r.ingredients ∧
      r.total = { weightGrams := (sumTotals r.ingredients).1,
                  carbsGrams := (sumTotals r.ingredients).2 } := by
  unfold getNutrition at h
  by_cases h0 : ingredients.length = 0
  · simp [h0] at h
  · simp only [h0, if_false] at h
    refine ⟨fun hnil => h0 (by rw [hnil]; rfl), ?_⟩
    cases hsvc : nutritionix (nutritionQuery ingredients) with
    | error e => rw [hsvc] at h; simp at h
    | ok foods =>
      rw [hsvc] at h
      simp only at h
      by_cases hlen : foods.length = ingredients.length
      · simp only [hlen, ne_eq, not_true_eq_false, if_false] at h
        cases hloop : foodLoop ingredients foods 0 emptyResult.ingredients with
        | none => rw [hloop] at h; simp at h
        | some m =>
          rw [hloop] at h
          simp only [Run.ret.injEq, and_true] at h
          subst h
          exact ⟨foods, rfl, hlen, hloop, by simp [sumTotals_visit]⟩
      · simp [hlen] at h

theorem foodLoop_nodup (ingredients : List Ingredient) (foods : List FoodDTO) :
    ∀ (i : Nat) (m m' : GoMap NutritionSummary),
      foodLoop ingredients foods i m = some m' → (m.map Prod.fst).Nodup →
      (m'.map Prod.fst).Nodup := by
  induction foods with
  | nil =>
    intro i m m' h hm
    simp only [foodLoop, Option.some.injEq] at h
    rw [← h]
    exact hm
  | cons food rest ih =>
    intro i m m' h hm
    unfold foodLoop at h
    cases hi : ingredients[i]? with
    | none => rw [hi] at h; simp at h
    | some ing =>
      rw [hi] at h
      simp only at h
      exact ih (i + 1) _ m' h (mapSet_nodup m hm _ _)

/-! ## Concrete lookups -/

theorem getNutrition_eggFlour :
    (getNutrition RangeOrder.insertion eggFlourService eggFlourIngredients).outcome =
      Run.ret eggFlourResult none := by
  simp [getNutrition, eggFlourService, eggFlourIngredients, eggFlourResult, foodLoop, mapSet,
    sumTotals, RangeOrder.insertion, emptyResult]
  norm_num

theorem getNutrition_sugar :
    (getNutrition RangeOrder.insertion sugarService sugarIngredients).outcome =
      Run.ret sugarResult none := by
  simp [getNutrition, sugarService, sugarIngredients, sugarResult, foodLoop, mapSet,
    sumTotals, RangeOrder.insertion, emptyResult]
  norm_num

/-! ## C2 -/

/-- C2. After a successful `getNutrition` the total weight and the total carbs equal the
sums of the weights and of the carbs over the entries of the ingredients map, in whatever
order the entries are listed; this includes results in which a later food overwrote the
entry of an earlier one with the same name. -/
theorem getNutrition_total_eq_sum (o : RangeOrder)
    (nutritionix : String → Except String (List FoodDTO)) (ingredients : List Ingredient)
    (r : RecipeResult) (h : (getNutrition o nutritionix ingredients).outcome = Run.ret r none)
    (entries : List (String × NutritionSummary)) (hentries : entries.Perm r.ingredients) :
    r.total.weightGrams = (entries.map fun e => e.2.weightGrams).sum ∧
    r.total.carbsGrams = (entries.map fun e => e.2.carbsGrams).sum := by
  obtain ⟨_, foods, _, _, _, htot⟩ := getNutrition_success o nutritionix ingredients r h
  rw [htot, sumTotals_eq]
  exact ⟨((hentries.map fun e => e.2.weightGrams).sum_eq).symm,
    ((hentries.map fun e => e.2.carbsGrams).sum_eq).symm⟩

theorem getNutrition_total_eq_sum_witness :
    sugarResult.total.weightGrams =
      (sugarResult.ingredients.map fun e => e.2.weightGrams).sum ∧
    sugarResult.total.carbsGrams =
      (sugarResult.ingredients.map fun e => e.2.carbsGrams).sum :=
  getNutrition_total_eq_sum RangeOrder.insertion sugarService sugarIngredients sugarResult
    getNutrition_sugar sugarResult.ingredients (List.Perm.refl _)

/-! ## C3 -/

/-- C3. After a successful `getNutrition` over ingredients `I` the service returned a food
list `F` of the same length; the ingredients map has unique keys, its key set is the set of
food names of `F`, and the entry of a food name is built from the last position `i` at
which that name occurs in `F`: weight `I[i].quantityGrams` and carbs
`I[i].quantityGrams * (F[i].nfTotalCarbohydrate / F[i].servingWeightGrams)`. -/
theorem getNutrition_entries (o : RangeOrder)
    (nutritionix : String → Except String (List FoodDTO)) (ingredients : List Ingredient)
    (r : RecipeResult) (h : (getNutrition o nutritionix ingredients).outcome = Run.ret r none) :
    ∃ foods, nutritionix (nutritionQuery ingredients) = Except.ok foods ∧
      foods.length = ingredients.length ∧
      (r.ingredients.map Prod.fst).Nodup ∧
      (∀ n, (mapGet r.ingredients n).isSome ↔ n ∈ foods.map FoodDTO.foodName) ∧
      (∀ (i : Nat) (food : FoodDTO) (ing : Ingredient),
        foods[i]? = some food → ingredients[i]? = some ing →
        (∀ (j : Nat) (food' : FoodDTO), i < j → foods[j]? = some food' → food'.foodName ≠ food.foodName) →
        mapGet r.ingredients food.foodName =
          some { weightGrams := ing.quantityGrams,
                 carbsGrams := ing.quantityGrams *
                   (food.nfTotalCarbohydrate / food.servingWeightGrams) }) := by
  obtain ⟨_, foods, hsvc, hlen, hloop, _⟩ := getNutrition_success o nutritionix ingredients r h
  refine ⟨foods, hsvc, hlen, ?_, ?_, ?_⟩
  · exact foodLoop_nodup ingredients foods 0 [] _ hloop (by simp)
  · intro n
    rw [foodLoop_keys ingredients foods n 0 [] _ hloop]
    simp [mapGet]
  · intro i food ing hf hi hlast
    exact foodLoop_get_last ingredients foods 0 [] _ hloop i food ing hf
      (by simpa using hi) hlast

theorem getNutrition_entries_witness :
    (∃ foods, eggFlourService (nutritionQuery eggFlourIngredients) = Except.ok foods ∧
      foods.length = eggFlourIngredients.length ∧
      (eggFlourResult.ingredients.map Prod.fst).Nodup ∧
      (∀ n, (mapGet eggFlourResult.ingredients n).isSome ↔ n ∈ foods.map FoodDTO.foodName) ∧
      (∀ (i : Nat) (food : FoodDTO) (ing : Ingredient),
        foods[i]? = some food → eggFlourIngredients[i]? = some ing →
        (∀ (j : Nat) (food' : FoodDTO), i < j → foods[j]? = some food' → food'.foodName ≠ food.foodName) →
        mapGet eggFlourResult.ingredients food.foodName =
          some { weightGrams := ing.quantityGrams,
                 carbsGrams := ing.quantityGrams *
                   (food.nfTotalCarbohydrate / food.servingWeightGrams) })) ∧
    (getNutrition RangeOrder.insertion eggFlourService eggFlourIngredients).outcome =
      Run.ret { total := { weightGrams := 220, carbsGrams := 87 },
                ingredients := [("egg", { weightGrams := 120, carbsGrams := 12 }),
                                ("flour", { weightGrams := 100, carbsGrams := 75 })] } none :=
  ⟨getNutrition_entries RangeOrder.insertion eggFlourService eggFlourIngredients
      eggFlourResult getNutrition_eggFlour,
   getNutrition_eggFlour⟩

/-! ## C4 -/

/-- C4. When the nutrition service answers the query of `I` with a food list `F` and no
error, `getNutrition` returns (it does not panic); it returns an error exactly when `I` is
empty or `F` and `I` differ in length; with an error the returned result is the empty one
(empty map, zero totals); and for empty `I` no query was sent to the service. -/
theorem getNutrition_error_iff (o : RangeOrder)
    (nutritionix : String → Except String (List FoodDTO)) (ingredients : List Ingredient)
    (foods : List FoodDTO)
    (hsvc : nutritionix (nutritionQuery ingredients) = Except.ok foods) :
    (∃ r e, (getNutrition o nutritionix ingredients).outcome = Run.ret r e ∧
      (e.isSome ↔ (ingredients = [] ∨ foods.length ≠ ingredients.length)) ∧
      (e.isSome → r = emptyResult)) ∧
    (ingredients = [] → (getNutrition o nutritionix ingredients).queries = []) := by
  unfold getNutrition
  by_cases h0 : ingredients.length = 0
  · have hnil : ingredients = [] := List.length_eq_zero.1 h0
    subst hnil
    simp only [List.length_nil, if_true, true_or, iff_true, forall_const, and_true]
    exact ⟨emptyResult, some "zero ingredients", rfl, rfl, fun _ => rfl⟩
  · have hne : ingredients ≠ [] := fun hnil => h0 (by rw [hnil]; rfl)
    simp only [h0, if_false, hsvc, hne, false_or, false_implies, and_true]
    by_cases hlen : foods.length = ingredients.length
    · simp only [hlen, ne_eq, not_true_eq_false, if_false]
      obtain ⟨m, hm⟩ := foodLoop_some ingredients foods 0 emptyResult.ingredients
        (by omega)
      rw [hm]
      exact ⟨_, none, rfl, by simp, by simp⟩
    · simp only [ne_eq, hlen, not_false_eq_true, if_true]
      exact ⟨_, _, rfl, by simp, by simp⟩

theorem getNutrition_error_iff_witness :
    (∃ r e, (getNutrition RangeOrder.insertion eggFlourService eggFlourIngredients).outcome =
        Run.ret r e ∧
      (e.isSome ↔ (eggFlourIngredients = [] ∨
        ([{ foodName := "egg", servingWeightGrams := 50, nfTotalCarbohydrate := 5 },
          { foodName := "flour", servingWeightGrams := 100, nfTotalCarbohydrate := 75 }] :
            List FoodDTO).length ≠ eggFlourIngredients.length)) ∧
      (e.isSome → r = emptyResult)) ∧
    (eggFlourIngredients = [] →
      (getNutrition RangeOrder.insertion eggFlourService eggFlourIngredients).queries = []) :=
  getNutrition_error_iff RangeOrder.insertion eggFlourService eggFlourIngredients _ rfl

/-! ## C5 -/

theorem fmt2f_zero : fmt2f 0 = "0.00" := by
  simp [fmt2f]
  decide

/-- C5, the code at the marker response. Extraction fails with an error, yet
`calculateRecipeCarbs` goes on: it invokes the lookup with the empty list, formats the empty
result, sends that report and returns a nil error. -/
theorem calculateRecipeCarbs_continues_after_error :
    getRecipeIngredients markerServices.lib markerServices.parserOrder markerServices.chat
        "hello world!" = Run.ret [] (some "no ingridients in recipe") ∧
    calculateRecipeCarbs markerServices "hello world!" =
      (Run.ret () none,
       [Event.extract "hello world!", Event.lookup [], Event.format emptyResult,
        Event.send "Ingredients:\n\n\n Total weight: 0\\.00\n Total carbs: 0\\.00"
          "MarkdownV2"]) := by
  have h1 : getRecipeIngredients markerServices.lib markerServices.parserOrder
      markerServices.chat "hello world!" = Run.ret [] (some "no ingridients in recipe") := by
    decide
  have h2 : (getNutrition markerServices.checkerOrder markerServices.nutritionix []).outcome =
      Run.ret emptyResult (some "zero ingredients") := by
    decide
  have h3 : toTelegramResponse markerServices.lib markerServices.formatOrder emptyResult =
      "Ingredients:\n\n\n Total weight: 0\\.00\n Total carbs: 0\\.00" := by
    simp only [toTelegramResponse, markerServices, RangeOrder.insertion, emptyResult,
      List.foldl_nil, mdFormatFloat, simpleLib, fmt2f_zero]
    decide
  refine ⟨h1, ?_⟩
  simp only [calculateRecipeCarbs, h1, h2, h3]
  rfl

/-! ## C10 -/

theorem simpleCsvLines_negativeCsv :
    simpleCsvLines negativeCsv =
      [RawRow.fields headerFields, RawRow.fields ["sugar", "sugar", "-5", "1", "pinch"]] := by
  decide

theorem parseDecimal_neg5 : parseDecimal "-5" = some (-5) := by
  simp [parseDecimal, show signedParts "-5" = some (true, 5, 0) from by decide]

theorem getRecipeIngredients_negativeCsv :
    getRecipeIngredients simpleLib RangeOrder.insertion (replyWith negativeCsv) "a pinch" =
      Run.ret [{ name := "sugar", genericName := "sugar", quantityGrams := -5,
                 originalQuantity := "-5", originalQuantityUnit := "1" }] none := by
  have hm : negativeCsv ≠ "NO_INGREDIENTS" := by decide
  simp [getRecipeIngredients, replyWith, hm, simpleLib, simpleCsvLines_negativeCsv, readRow,
    headerFields, readLoop, rowIngredient, parseGrams, parseDecimal_neg5,
    appendToGroup, mapGet, mapSet, RangeOrder.insertion, mergeLoop, mergeGroup]
  norm_num

/-- C10, counterexample. A row with the gram quantity `-5` is extracted and looked up
successfully, and the resulting totals are negative. -/
theorem pipeline_negative_quantity :
    ∃ ings r,
      getRecipeIngredients simpleLib RangeOrder.insertion (replyWith negativeCsv) "a pinch" =
        Run.ret ings none ∧
      (getNutrition RangeOrder.insertion plainSugarService ings).outcome = Run.ret r none ∧
      r.total.weightGrams < 0 ∧ r.total.carbsGrams < 0 := by
  refine ⟨_, { total := { weightGrams := -5, carbsGrams := -5 },
               ingredients := [("sugar", { weightGrams := -5, carbsGrams := -5 })] },
    getRecipeIngredients_negativeCsv, ?_, by norm_num, by norm_num⟩
  simp [getNutrition, plainSugarService, foodLoop, mapSet, sumTotals, RangeOrder.insertion,
    emptyResult]

theorem parseGrams_nonneg (lib : StdLib) (field : String)
    (h : ∀ q, lib.parseFloat field = some q → 0 ≤ q) : 0 ≤ parseGrams lib field := by
  unfold parseGrams
  cases hp : lib.parseFloat field with
  | none => simp
  | some g =>
    have := h g hp
    simp only
    positivity

theorem specEmit_nonneg (g : List Ingredient) (x : Ingredient)
    (hg : ∀ ing ∈ g, 0 ≤ ing.quantityGrams) (hx : specEmit g = some x) :
    0 ≤ x.quantityGrams := by
  match g, hg, hx with
  | [single], hg, hx =>
    simp only [specEmit, Option.some.injEq] at hx
    rw [← hx]
    exact hg single (List.mem_cons_self _ _)
  | first :: second :: others, hg, hx =>
    simp only [specEmit, Option.some.injEq] at hx
    rw [← hx]
    apply List.sum_nonneg
    intro q hq
    obtain ⟨ing, hing, rfl⟩ := List.mem_map.1 hq
    exact hg ing hing

theorem groupByGenericName_nonneg (parsed : List Ingredient)
    (h : ∀ ing ∈ parsed, 0 ≤ ing.quantityGrams) :
    ∀ x ∈ groupByGenericName parsed, 0 ≤ x.quantityGrams := by
  intro x hx
  unfold groupByGenericName at hx
  obtain ⟨k, _, hk⟩ := List.mem_filterMap.1 hx
  exact specEmit_nonneg _ x (fun ing hing => h ing (List.mem_filter.1 hing).1) hk

/-- C10, amended. When every data row read without error carries a gram quantity that is
non-negative wherever it parses, and every food the service returns has a non-negative
total carbohydrate and a positive serving weight, then after a successful extraction and a
successful lookup every summary of the result, the map entries and the total, has
non-negative weight and carbs. -/
theorem pipeline_nonneg (lib : StdLib) (o1 o2 : RangeOrder)
    (chat : String → Except String (List String))
    (nutritionix : String → Except String (List FoodDTO))
    (text content : String) (more : List String) (header : RawRow) (rows : List RawRow)
    (ings : List Ingredient) (r : RecipeResult)
    (hchat : chat text = Except.ok (content :: more))
    (hlex : lib.csvLines content = header :: rows)
    (hq : ∀ record ∈ keptRows (readRow 0 header).2 rows,
      ∀ q, lib.parseFloat (record.getD 2 "") = some q → 0 ≤ q)
    (hfood : ∀ foods, nutritionix (nutritionQuery ings) = Except.ok foods →
      ∀ food ∈ foods, 0 ≤ food.nfTotalCarbohydrate ∧ 0 < food.servingWeightGrams)
    (hex : getRecipeIngredients lib o1 chat text = Run.ret ings none)
    (hlook : (getNutrition o2 nutritionix ings).outcome = Run.ret r none) :
    (∀ e ∈ r.ingredients, 0 ≤ e.2.weightGrams ∧ 0 ≤ e.2.carbsGrams) ∧
    0 ≤ r.total.weightGrams ∧ 0 ≤ r.total.carbsGrams := by
  obtain ⟨content', more', header', rows', hd, fpr, hchat', _, hlex', hread, _, hperm, _⟩ :=
    getRecipeIngredients_success lib o1 chat text ings hex
  rw [hchat] at hchat'
  simp only [Except.ok.injEq, List.cons.injEq] at hchat'
  obtain ⟨rfl, rfl⟩ := hchat'
  rw [hlex] at hlex'
  simp only [List.cons.injEq] at hlex'
  obtain ⟨rfl, rfl⟩ := hlex'
  rw [hread] at hq
  have hings : ∀ ing ∈ ings, 0 ≤ ing.quantityGrams := by
    intro ing hing
    refine groupByGenericName_nonneg _ ?_ ing (hperm.mem_iff.1 hing)
    intro p hp
    obtain ⟨record, hrec, rfl⟩ := List.mem_map.1 hp
    exact parseGrams_nonneg lib _ (hq record hrec)
  obtain ⟨_, foods, hsvc, _, hloop, htot⟩ := getNutrition_success o2 nutritionix ings r hlook
  have hentries : ∀ e ∈ r.ingredients, 0 ≤ e.2.weightGrams ∧ 0 ≤ e.2.carbsGrams := by
    intro e he
    rcases foodLoop_mem ings foods 0 [] _ hloop e he with h0 | ⟨food, hf, ing, hi, hs⟩
    · simp at h0
    · obtain ⟨hc, hw⟩ := hfood foods hsvc food hf
      have hqi := hings ing hi
      rw [hs]
      refine ⟨hqi, ?_⟩
      simp only [summaryOf]
      positivity
  refine ⟨hentries, ?_, ?_⟩
  · rw [htot, sumTotals_eq]
    apply List.sum_nonneg
    intro q hq'
    obtain ⟨e, he, rfl⟩ := List.mem_map.1 hq'
    exact (hentries e he).1
  · rw [htot, sumTotals_eq]
    apply List.sum_nonneg
    intro q hq'
    obtain ⟨e, he, rfl⟩ := List.mem_map.1 hq'
    exact (hentries e he).2

theorem pipeline_nonneg_witness :
    (∀ e ∈ ([("tomato", { weightGrams := 120, carbsGrams := 6 })] :
        GoMap NutritionSummary), 0 ≤ e.2.weightGrams ∧ 0 ≤ e.2.carbsGrams) ∧
    (0 : ℚ) ≤ (120 : ℚ) ∧ (0 : ℚ) ≤ (6 : ℚ) :=
  pipeline_nonneg simpleLib RangeOrder.insertion RangeOrder.insertion (replyWith tomatoCsv)
    (fun _ => Except.ok
      [{ foodName := "tomato", servingWeightGrams := 100, nfTotalCarbohydrate := 5 }])
    "tomato salad" tomatoCsv [] (RawRow.fields headerFields)
    [RawRow.fields ["tomato", "tomato", "50", "1", "pcs"],
     RawRow.fields ["cherry tomato", "tomato", "70", "70", "g"]]
    [{ name := "tomato", genericName := "tomato", quantityGrams := 120,
       originalQuantity := "-", originalQuantityUnit := "-" }]
    { total := { weightGrams := 120, carbsGrams := 6 },
      ingredients := [("tomato", { weightGrams := 120, carbsGrams := 6 })] }
    rfl simpleCsvLines_tomatoCsv
    (by
      intro record hrec q hq
      simp only [keptRows, readRow, headerFields, List.length_cons, List.length_nil,
        List.mem_cons] at hrec
      simp at hrec
      rcases hrec with rfl | rfl
      · have h50 : simpleLib.parseFloat "50" = some 50 := parseDecimal_50
        simp only [List.getD_cons_succ, List.getD_cons_zero] at hq
        rw [h50] at hq
        simp only [Option.some.injEq] at hq
        rw [← hq]
        norm_num
      · have h70 : simpleLib.parseFloat "70" = some 70 := parseDecimal_70
        simp only [List.getD_cons_succ, List.getD_cons_zero] at hq
        rw [h70] at hq
        simp only [Option.some.injEq] at hq
        rw [← hq]
        norm_num)
    (by
      intro foods hfoods food hfood
      simp only [Except.ok.injEq] at hfoods
      rw [← hfoods] at hfood
      simp only [List.mem_singleton] at hfood
      rw [hfood]
      norm_num)
    getRecipeIngredients_tomatoCsv
    (by
      simp [getNutrition, foodLoop, mapSet, sumTotals, RangeOrder.insertion, emptyResult]
      norm_num)

/-! ## C9 -/

theorem runEnd_snoc (pre : List Char) (c : Char) :
    runEnd (pre ++ [c]) = if c = '\\' then runEnd pre + 1 else 0 := by
  unfold runEnd
  by_cases h : c = '\\' <;> simp [List.takeWhile, h]

theorem nextParity_spec (pre : List Char) (p : Bool) (c : Char)
    (h : p = true ↔ Odd (runEnd pre)) :
    nextParity p c = true ↔ Odd (runEnd (pre ++ [c])) := by
  rw [runEnd_snoc]
  unfold nextParity
  by_cases hc : c = '\\'
  · simp only [hc, if_true, Nat.odd_add_one, ← h]
    cases p <;> simp
  · simp [hc]

theorem dotsOK_spec (want : Bool) (l : List Char) :
    ∀ (pre : List Char) (p : Bool), (p = true ↔ Odd (runEnd pre)) →
      (dotsOK want p l = true ↔
        ∀ i, l[i]? = some '.' → (Odd (runEnd (pre ++ l.take i)) ↔ want = true)) := by
  induction l with
  | nil => intro pre p _; simp [dotsOK]
  | cons c cs ih =>
    intro pre p hp
    have hstep := ih (pre ++ [c]) (nextParity p c) (nextParity_spec pre p c hp)
    simp only [dotsOK, Bool.and_eq_true, hstep]
    constructor
    · rintro ⟨h0, hrest⟩ i hi
      cases i with
      | zero =>
        simp only [List.getElem?_cons_zero, Option.some.injEq] at hi
        simp only [List.take_zero, List.append_nil, ← hp]
        simp only [hi, ne_eq, not_true_eq_false, decide_False, Bool.false_or, beq_iff_eq] at h0
        rw [h0]
      | succ j =>
        simp only [List.getElem?_cons_succ] at hi
        have := hrest j hi
        simpa using this
    · intro h
      constructor
      · by_cases hc : c = '.'
        · have h0 := h 0 (by simp [hc])
          simp only [List.take_zero, List.append_nil, ← hp] at h0
          simp only [hc, ne_eq, not_true_eq_false, decide_False, Bool.false_or, beq_iff_eq]
          cases p <;> cases want <;> simp_all
        · simp [hc]
      · intro j hj
        have := h (j + 1) (by simpa using hj)
        simpa using this

theorem dotsEscaped_iff (l : List Char) : DotsEscaped l ↔ dotsOK true false l = true := by
  rw [dotsOK_spec true l [] false (by simp [runEnd])]
  unfold DotsEscaped backslashRun
  simp

theorem dotsBare_iff (l : List Char) : DotsBare l ↔ dotsOK false false l = true := by
  rw [dotsOK_spec false l [] false (by simp [runEnd])]
  unfold DotsBare backslashRun
  simp

theorem dotsOK_append (want : Bool) (a b : List Char) :
    ∀ p, dotsOK want p (a ++ b) = (dotsOK want p a && dotsOK want (scanParity p a) b) := by
  induction a with
  | nil => intro p; simp [dotsOK, scanParity]
  | cons c cs ih => intro p; simp [dotsOK, scanParity, ih, Bool.and_assoc]

theorem scanParity_append (a b : List Char) :
    ∀ p, scanParity p (a ++ b) = scanParity (scanParity p a) b := by
  induction a with
  | nil => intro p; simp [scanParity]
  | cons c cs ih => intro p; simp [scanParity, ih]

theorem scanParity_replaceDot (l : List Char) :
    ∀ p, scanParity p (replaceDot l) = scanParity p l := by
  induction l with
  | nil => intro p; simp [replaceDot]
  | cons c cs ih =>
    intro p
    by_cases hc : c = '.'
    · subst hc
      simp [replaceDot, scanParity, nextParity, ih]
    · simp [replaceDot, hc, scanParity, ih]

theorem dotsOK_replaceDot (l : List Char) :
    ∀ p, dotsOK false p l = true → dotsOK true p (replaceDot l) = true := by
  induction l with
  | nil => intro p _; simp [replaceDot, dotsOK]
  | cons c cs ih =>
    intro p h
    simp only [dotsOK, Bool.and_eq_true] at h
    by_cases hc : c = '.'
    · subst hc
      have hp : p = false := by simpa using h.1
      subst hp
      have h2 := ih _ h.2
      simp only [nextParity] at h2
      simp [replaceDot, dotsOK, nextParity]
      simpa using h2
    · simp only [replaceDot, hc, if_false, dotsOK, Bool.and_eq_true]
      exact ⟨by simp [hc], ih _ h.2⟩

theorem dotsOK_of_no_backslash (l : List Char) (h : '\\' ∉ l) :
    dotsOK false false l = true ∧ scanParity false l = false := by
  induction l with
  | nil => simp [dotsOK, scanParity]
  | cons c cs ih =>
    have hc : c ≠ '\\' := fun e => h (by rw [e]; exact List.mem_cons_self _ _)
    have hcs : '\\' ∉ cs := fun e => h (List.mem_cons_of_mem _ e)
    obtain ⟨h1, h2⟩ := ih hcs
    simp [dotsOK, scanParity, nextParity, hc, h1, h2]

theorem good_lit (acc lit : List Char) (hacc : Good acc) (hlit : Resets lit) :
    Good (acc ++ lit) := by
  obtain ⟨h1, h2⟩ := hacc
  constructor
  · rw [dotsOK_append, h1, h2, (hlit false).1]
    rfl
  · rw [scanParity_append, h2, (hlit false).2]

theorem good_step (acc l lit : List Char) (hacc : Good acc)
    (hl : dotsOK false false l = true) (hlit : Resets lit) :
    Good (acc ++ replaceDot l ++ lit) := by
  obtain ⟨h1, h2⟩ := hacc
  constructor
  · rw [dotsOK_append, dotsOK_append, h1, h2, dotsOK_replaceDot l false hl,
      scanParity_append, (hlit _).1]
    rfl
  · rw [scanParity_append, (hlit _).2]

theorem good_esc (acc l : List Char) (hacc : Good acc) (hl : '\\' ∉ l) :
    Good (acc ++ replaceDot l) := by
  obtain ⟨h1, h2⟩ := hacc
  obtain ⟨h3, h4⟩ := dotsOK_of_no_backslash l hl
  constructor
  · rw [dotsOK_append, h1, h2, dotsOK_replaceDot l false h3]
    rfl
  · rw [scanParity_append, h2, scanParity_replaceDot, h4]

theorem good_ingredientLine (lib : StdLib) (acc : String) (name : String)
    (info : NutritionSummary) (hfmt : ∀ v, '\\' ∉ (lib.sprintf2f v).data)
    (hacc : Good acc.data) (hname : DotsBare name.data) :
    Good (acc ++ ingredientLine lib name info).data := by
  have l1 : Resets "\n Â· ".data := by intro p; cases p <;> decide
  have l2 : Resets ": ".data := by intro p; cases p <;> decide
  have l3 : Resets " grams, ".data := by intro p; cases p <;> decide
  have l4 : Resets " carbs".data := by intro p; cases p <;> decide
  have hn := (dotsBare_iff name.data).1 hname
  have hw := (dotsOK_of_no_backslash _ (hfmt info.weightGrams)).1
  have hc := (dotsOK_of_no_backslash _ (hfmt info.carbsGrams)).1
  have := good_step _ _ _ (good_step _ _ _ (good_step _ _ _ (good_lit _ _ hacc l1) hn l2)
    hw l3) hc l4
  simpa [ingredientLine, mdFormatString, mdFormatFloat, List.append_assoc] using this

theorem good_foldl (lib : StdLib) (hfmt : ∀ v, '\\' ∉ (lib.sprintf2f v).data)
    (entries : List (String × NutritionSummary)) :
    ∀ acc : String, Good acc.data → (∀ e ∈ entries, DotsBare e.1.data) →
      Good (entries.foldl (fun resp e => resp ++ ingredientLine lib e.1 e.2) acc).data := by
  induction entries with
  | nil => intro acc h _; exact h
  | cons e rest ih =>
    intro acc h hn
    simp only [List.foldl_cons]
    exact ih _ (good_ingredientLine lib acc e.1 e.2 hfmt h (hn e (List.mem_cons_self _ _)))
      (fun x hx => hn x (List.mem_cons_of_mem _ hx))

theorem toTelegramResponse_dotsEscaped (lib : StdLib) (o : RangeOrder) (r : RecipeResult)
    (hfmt : ∀ v, '\\' ∉ (lib.sprintf2f v).data)
    (hnames : ∀ e ∈ r.ingredients, DotsBare e.1.data) :
    DotsEscaped (toTelegramResponse lib o r).data := by
  have h0 : Good "Ingredients:".data := by constructor <;> decide
  have l1 : Resets "\n\n".data := by intro p; cases p <;> decide
  have l2 : Resets "\n Total weight: ".data := by intro p; cases p <;> decide
  have l3 : Resets "\n Total carbs: ".data := by intro p; cases p <;> decide
  have hloop := good_foldl lib hfmt (o.visit r.ingredients) "Ingredients:" h0
    (fun e he => hnames e ((o.isPerm r.ingredients).mem_iff.1 he))
  have := good_esc _ _ (good_lit _ _ (good_esc _ _ (good_lit _ _ (good_lit _ _ hloop l1) l2)
    (hfmt r.total.weightGrams)) l3) (hfmt r.total.carbsGrams)
  rw [dotsEscaped_iff]
  simpa [toTelegramResponse, mdFormatFloat, List.append_assoc] using this.1

theorem prevOK_spec (l : List Char) :
    ∀ b, prevOK b l = true →
      ∀ i, l[i]? = some '.' → (i = 0 ∧ b = true) ∨ ∃ j, i = j + 1 ∧ l[j]? = some '\\' := by
  induction l with
  | nil => intro b _ i hi; simp at hi
  | cons c cs ih =>
    intro b h i hi
    simp only [prevOK, Bool.and_eq_true] at h
    cases i with
    | zero =>
      simp only [List.getElem?_cons_zero, Option.some.injEq] at hi
      left
      refine ⟨rfl, ?_⟩
      simpa [hi] using h.1
    | succ k =>
      simp only [List.getElem?_cons_succ] at hi
      right
      rcases ih _ h.2 k hi with ⟨hk, hb⟩ | ⟨j, hj, hjb⟩
      · refine ⟨0, by omega, ?_⟩
        simpa using hb
      · exact ⟨j + 1, by omega, by simpa using hjb⟩

theorem prevOK_append (a c : List Char) :
    ∀ b, prevOK b (a ++ c) = (prevOK b a && prevOK (endsWithBackslash b a) c) := by
  induction a with
  | nil => intro b; simp [prevOK, endsWithBackslash]
  | cons x xs ih => intro b; simp [prevOK, endsWithBackslash, ih, Bool.and_assoc]

theorem preceded_append (a c : List Char) (ha : Preceded a) (hc : Preceded c) :
    Preceded (a ++ c) := by
  intro b
  rw [prevOK_append, ha b, hc _]
  rfl

theorem preceded_of_no_dot (l : List Char) (h : '.' ∉ l) : Preceded l := by
  induction l with
  | nil => intro b; rfl
  | cons c cs ih =>
    intro b
    have hc : c ≠ '.' := fun e => h (by rw [e]; exact List.mem_cons_self _ _)
    simp [prevOK, hc, ih (fun e => h (List.mem_cons_of_mem _ e)) _]

theorem preceded_replaceDot (l : List Char) : Preceded (replaceDot l) := by
  induction l with
  | nil => intro b; rfl
  | cons c cs ih =>
    intro b
    by_cases hc : c = '.'
    · subst hc
      simp [replaceDot, prevOK, ih _]
    · simp [replaceDot, hc, prevOK, ih _]

theorem preceded_ingredientLine (lib : StdLib) (name : String) (info : NutritionSummary) :
    Preceded (ingredientLine lib name info).data := by
  have l1 : Preceded "\n Â· ".data := preceded_of_no_dot _ (by decide)
  have l2 : Preceded ": ".data := preceded_of_no_dot _ (by decide)
  have l3 : Preceded " grams, ".data := preceded_of_no_dot _ (by decide)
  have l4 : Preceded " carbs".data := preceded_of_no_dot _ (by decide)
  have := preceded_append _ _ (preceded_append _ _ (preceded_append _ _ (preceded_append _ _
    (preceded_append _ _ (preceded_append _ _ l1 (preceded_replaceDot name.data)) l2)
    (preceded_replaceDot (lib.sprintf2f info.weightGrams).data)) l3)
    (preceded_replaceDot (lib.sprintf2f info.carbsGrams).data)) l4
  simpa [ingredientLine, mdFormatString, mdFormatFloat, List.append_assoc] using this

theorem preceded_foldl (lib : StdLib) (entries : List (String × NutritionSummary)) :
    ∀ acc : String, Preceded acc.data →
      Preceded (entries.foldl (fun resp e => resp ++ ingredientLine lib e.1 e.2) acc).data := by
  induction entries with
  | nil => intro acc h; exact h
  | cons e rest ih =>
    intro acc h
    simp only [List.foldl_cons]
    refine ih _ ?_
    rw [String.data_append]
    exact preceded_append _ _ h (preceded_ingredientLine lib e.1 e.2)

theorem toTelegramResponse_dotsPreceded (lib : StdLib) (o : RangeOrder) (r : RecipeResult) :
    DotsPreceded (toTelegramResponse lib o r).data := by
  have h0 : Preceded "Ingredients:".data := preceded_of_no_dot _ (by decide)
  have l1 : Preceded "\n\n".data := preceded_of_no_dot _ (by decide)
  have l2 : Preceded "\n Total weight: ".data := preceded_of_no_dot _ (by decide)
  have l3 : Preceded "\n Total carbs: ".data := preceded_of_no_dot _ (by decide)
  have hloop := preceded_foldl lib (o.visit r.ingredients) "Ingredients:" h0
  have := preceded_append _ _ (preceded_append _ _ (preceded_append _ _ (preceded_append _ _
    (preceded_append _ _ hloop l1) l2)
    (preceded_replaceDot (lib.sprintf2f r.total.weightGrams).data)) l3)
    (preceded_replaceDot (lib.sprintf2f r.total.carbsGrams).data)
  have hall : Preceded (toTelegramResponse lib o r).data := by
    simpa [toTelegramResponse, mdFormatFloat, List.append_assoc] using this
  intro i hi
  rcases prevOK_spec _ false (hall false) i hi with ⟨_, hb⟩ | h
  · simp at hb
  · exact h

theorem digitChar_ne_backslash (d : Nat) (h : d < 10) : Nat.digitChar d ≠ '\\' := by
  interval_cases d <;> decide

theorem toDigitsCore_no_backslash (fuel : Nat) :
    ∀ (n : Nat) (ds : List Char), '\\' ∉ ds → '\\' ∉ Nat.toDigitsCore 10 fuel n ds := by
  induction fuel with
  | zero => intro n ds h; simpa [Nat.toDigitsCore] using h
  | succ f ih =>
    intro n ds h
    have hd : '\\' ∉ Nat.digitChar (n % 10) :: ds := by
      intro hmem
      rcases List.mem_cons.1 hmem with h1 | h1
      · exact digitChar_ne_backslash _ (Nat.mod_lt _ (by decide)) h1.symm
      · exact h h1
    unfold Nat.toDigitsCore
    simp only
    split
    · exact hd
    · exact ih _ _ hd

theorem toString_no_backslash (n : Nat) : '\\' ∉ (toString n).data := by
  show '\\' ∉ (Nat.toDigits 10 n)
  exact toDigitsCore_no_backslash _ _ _ (by simp)

theorem fmt2f_no_backslash (v : ℚ) : '\\' ∉ (fmt2f v).data := by
  unfold fmt2f fmt2Parts twoDigits
  simp only [String.data_append, List.mem_append, not_or]
  refine ⟨⟨⟨?_, toString_no_backslash _⟩, by decide⟩, ?_⟩
  · split <;> decide
  · split
    · simp only [String.data_append, List.mem_append, not_or]
      exact ⟨by decide, toString_no_backslash _⟩
    · exact toString_no_backslash _

theorem fmt2f_one : fmt2f 1 = "1.00" := by
  simp [fmt2f]
  decide

theorem toTelegramResponse_backslashResult :
    toTelegramResponse simpleLib RangeOrder.insertion backslashResult =
      "Ingredients:\n Â· a\\\\.b: 1\\.00 grams, 1\\.00 carbs\n\n\n Total weight: 1\\.00\n Total carbs: 1\\.00" := by
  simp only [toTelegramResponse, backslashResult, RangeOrder.insertion, List.foldl_cons,
    List.foldl_nil, ingredientLine, mdFormatFloat, simpleLib, fmt2f_one]
  decide

/-- C9, counterexample. For the food name `a\.b` the report holds, at position 20, a dot
with a run of two backslashes before it: the dot is not escaped. -/
theorem toTelegramResponse_backslash_name_unescaped :
    (toTelegramResponse simpleLib RangeOrder.insertion backslashResult).data[20]? = some '.' ∧
    backslashRun (toTelegramResponse simpleLib RangeOrder.insertion backslashResult).data 20 = 2 ∧
    ¬ DotsEscaped (toTelegramResponse simpleLib RangeOrder.insertion backslashResult).data := by
  rw [toTelegramResponse_backslashResult]
  have h1 : ("Ingredients:\n Â· a\\\\.b: 1\\.00 grams, 1\\.00 carbs\n\n\n Total weight: 1\\.00\n Total carbs: 1\\.00" : String).data[20]? = some '.' := by
    decide
  have h2 : backslashRun ("Ingredients:\n Â· a\\\\.b: 1\\.00 grams, 1\\.00 carbs\n\n\n Total weight: 1\\.00\n Total carbs: 1\\.00" : String).data 20 = 2 := by
    decide
  refine ⟨h1, h2, ?_⟩
  intro h
  have h3 := h 20 h1
  rw [h2] at h3
  exact absurd h3 (by decide)

/-- C9, amended. For every result the report has a backslash immediately before every dot;
and when `%.2f` output holds no backslash and in every food name each dot stands after an
even-length (possibly empty) run of backslashes, as in any name without backslashes, every
dot of the report stands after an odd-length run of backslashes. -/
theorem toTelegramResponse_dots (lib : StdLib) (o : RangeOrder) (r : RecipeResult) :
    DotsPreceded (toTelegramResponse lib o r).data ∧
    ((∀ v, '\\' ∉ (lib.sprintf2f v).data) →
      (∀ e ∈ r.ingredients, DotsBare e.1.data) →
      DotsEscaped (toTelegramResponse lib o r).data) :=
  ⟨toTelegramResponse_dotsPreceded lib o r, toTelegramResponse_dotsEscaped lib o r⟩

theorem toTelegramResponse_dots_witness :
    (∀ v, '\\' ∉ (simpleLib.sprintf2f v).data) ∧
    (∀ e ∈ dottedResult.ingredients, DotsBare e.1.data) ∧
    DotsPreceded (toTelegramResponse simpleLib RangeOrder.insertion dottedResult).data ∧
    DotsEscaped (toTelegramResponse simpleLib RangeOrder.insertion dottedResult).data :=
  have hnames : ∀ e ∈ dottedResult.ingredients, DotsBare e.1.data := by
    intro e he
    simp only [dottedResult, List.mem_singleton] at he
    rw [he]
    exact (dotsBare_iff _).2 (by decide)
  ⟨fmt2f_no_backslash, hnames,
    (toTelegramResponse_dots simpleLib RangeOrder.insertion dottedResult).1,
    (toTelegramResponse_dots simpleLib RangeOrder.insertion dottedResult).2
      fmt2f_no_backslash hnames⟩

end SugarSnap
